import Mathlib

/-!
# Verification of the hazelcast-python-client map proxy core

Shallow embedding of `hazelcast/proxy/map.py` (the `Map`, `MapFeatNearCache`
and `BlockingMap` proxies), `hazelcast/core.py` (`AddressHelper`), and — where
the repository code is not available in `src/` (the protocol builtin codecs
and the `NearCache` container) — models built from the specification, each
marked `Modelled from the spec:` in its doc comment.

Conventions: Python `dict`-backed caches become association lists keyed by the
serialized key; futures become their resolved values; an operation's
side-effect order (local cache mutation vs. remote invocation) is captured as
an explicit event trace in program order.
-/

namespace HzClient

/-! ## Near cache model

`Modelled from the spec:` the `NearCache` container itself
(`hazelcast/near_cache.py`, not under `src/`): "NearCacheEntry: serialized
key → deserialized value"; lookup by serialized key, per-key invalidation,
full clear.  We model it as an association list from serialized keys to
values; `_invalidate` drops a key, `_clear`/`clear` empties the cache,
`__setitem__` overwrites, `__getitem__` is `lookup`.
-/

/-- A client-local near cache: serialized key → deserialized value. -/
abbrev NearCache (κ ν : Type) : Type := List (κ × ν)

namespace NearCache

variable {κ ν : Type} [DecidableEq κ]

/-- `cache[key]` — `some v` on a hit, `none` where Python raises `KeyError`. -/
def lookup (c : NearCache κ ν) (k : κ) : Option ν :=
  (c.find? (fun p => p.1 = k)).map (·.2)

/-- `NearCache._invalidate(key)` — drop the key if present. -/
def invalidate (c : NearCache κ ν) (k : κ) : NearCache κ ν :=
  c.filter (fun p => ¬(p.1 = k))

/-- `NearCache._clear()` / `NearCache.clear()` — empty the cache. -/
def clear (_c : NearCache κ ν) : NearCache κ ν := []

/-- `cache[key] = value` — overwrite the binding for the key. -/
def insert (c : NearCache κ ν) (k : κ) (v : ν) : NearCache κ ν :=
  (k, v) :: invalidate c k

end NearCache

/-! ## Map proxy operations as traced state transformers

Transliterated from `hazelcast/proxy/map.py`.  The serialization service,
codec `encode_request` calls and the invocation service are external to the
near-cache logic; we record them as events.  `Req` names the codec request a
base-class internal builds and hands to `_invoke` / `_invoke_on_key`.
-/

/-- The codec request kinds built by the `Map` base-class internals. -/
inductive Req (κ : Type) where
  | put (k : κ) | putIfAbsent (k : κ) | putTransient (k : κ)
  | set (k : κ) | setTtl (k : κ)
  | remove (k : κ) | removeIfSame (k : κ) | delete (k : κ)
  | replace (k : κ) | replaceIfSame (k : κ)
  | evict (k : κ) | tryPut (k : κ) | tryRemove (k : κ)
  | executeOnKey (k : κ)
  | get (k : κ)
  | loadGivenKeys (ks : List κ)
  | loadAll (replaceExistingValues : Bool)
  | mapClear
  | evictAll
  deriving DecidableEq

/-- Observable side effects of a proxy operation, in program order. -/
inductive MapEvent (κ : Type) where
  | localInvalidate (k : κ)
  | localClear
  | remoteInvoke (r : Req κ)
  deriving DecidableEq

section MapOps

variable {κ ν : Type} [DecidableEq κ]

/-- `Map._put_internal` and the other single-key mutating internals of the
base class: encode the request and invoke on the key; the near cache is not
touched. -/
def Map.mutInternal (c : NearCache κ ν) (r : Req κ) :
    NearCache κ ν × List (MapEvent κ) :=
  (c, [MapEvent.remoteInvoke r])

/-- `MapFeatNearCache._invalidate_cache` (`self._near_cache._invalidate(key)`). -/
def MapFeatNearCache.invalidateCache (c : NearCache κ ν) (k : κ) :
    NearCache κ ν × List (MapEvent κ) :=
  (NearCache.invalidate c k, [MapEvent.localInvalidate k])

/-- `MapFeatNearCache._invalidate_cache_batch` — invalidate every key of the
list, in order. -/
def MapFeatNearCache.invalidateCacheBatch (c : NearCache κ ν) (ks : List κ) :
    NearCache κ ν × List (MapEvent κ) :=
  (ks.foldl (fun acc k => NearCache.invalidate acc k) c,
   ks.map MapEvent.localInvalidate)

/-- The key-addressed mutating operations `MapFeatNearCache` overrides
(`_put_internal`, `_set_internal`, `_remove_internal`, …), each carrying the
serialized key(s) it addresses. -/
inductive MutOp (κ : Type) where
  | put (k : κ) | putIfAbsent (k : κ) | putTransient (k : κ)
  | set (k : κ) | setTtl (k : κ)
  | remove (k : κ) | removeIfSame (k : κ) | delete (k : κ)
  | replace (k : κ) | replaceIfSame (k : κ)
  | evict (k : κ) | tryPut (k : κ) | tryRemove (k : κ)
  | executeOnKey (k : κ)
  | loadGivenKeys (ks : List κ)
  deriving DecidableEq

/-- The serialized keys a mutating operation addresses. -/
def MutOp.keys {κ : Type} : MutOp κ → List κ
  | .put k | .putIfAbsent k | .putTransient k | .set k | .setTtl k
  | .remove k | .removeIfSame k | .delete k | .replace k | .replaceIfSame k
  | .evict k | .tryPut k | .tryRemove k | .executeOnKey k => [k]
  | .loadGivenKeys ks => ks

/-- The codec request the base-class internal builds for the operation. -/
def MutOp.req {κ : Type} : MutOp κ → Req κ
  | .put k => .put k
  | .putIfAbsent k => .putIfAbsent k
  | .putTransient k => .putTransient k
  | .set k => .set k
  | .setTtl k => .setTtl k
  | .remove k => .remove k
  | .removeIfSame k => .removeIfSame k
  | .delete k => .delete k
  | .replace k => .replace k
  | .replaceIfSame k => .replaceIfSame k
  | .evict k => .evict k
  | .tryPut k => .tryPut k
  | .tryRemove k => .tryRemove k
  | .executeOnKey k => .executeOnKey k
  | .loadGivenKeys ks => .loadGivenKeys ks

/-- The shape shared by every single-key `MapFeatNearCache` mutating
override: `self._invalidate_cache(key_data)` and then
`super()._<op>_internal(...)`, which encodes the request and invokes. -/
def MapFeatNearCache.singleKeyMut (c : NearCache κ ν) (k : κ) (r : Req κ) :
    NearCache κ ν × List (MapEvent κ) :=
  let (c1, evs1) := MapFeatNearCache.invalidateCache c k
  let (c2, evs2) := Map.mutInternal c1 r
  (c2, evs1 ++ evs2)

/-- The `MapFeatNearCache` overrides of the key-addressed mutating
internals, one arm per override (`_put_internal`, `_set_internal`, …;
`_load_all_internal` uses `_invalidate_cache_batch` over its key list). -/
def MapFeatNearCache.runMut (c : NearCache κ ν) (op : MutOp κ) :
    NearCache κ ν × List (MapEvent κ) :=
  match op with
  | .put k => MapFeatNearCache.singleKeyMut c k (Req.put k)
  | .putIfAbsent k => MapFeatNearCache.singleKeyMut c k (Req.putIfAbsent k)
  | .putTransient k => MapFeatNearCache.singleKeyMut c k (Req.putTransient k)
  | .set k => MapFeatNearCache.singleKeyMut c k (Req.set k)
  | .setTtl k => MapFeatNearCache.singleKeyMut c k (Req.setTtl k)
  | .remove k => MapFeatNearCache.singleKeyMut c k (Req.remove k)
  | .removeIfSame k => MapFeatNearCache.singleKeyMut c k (Req.removeIfSame k)
  | .delete k => MapFeatNearCache.singleKeyMut c k (Req.delete k)
  | .replace k => MapFeatNearCache.singleKeyMut c k (Req.replace k)
  | .replaceIfSame k => MapFeatNearCache.singleKeyMut c k (Req.replaceIfSame k)
  | .evict k => MapFeatNearCache.singleKeyMut c k (Req.evict k)
  | .tryPut k => MapFeatNearCache.singleKeyMut c k (Req.tryPut k)
  | .tryRemove k => MapFeatNearCache.singleKeyMut c k (Req.tryRemove k)
  | .executeOnKey k => MapFeatNearCache.singleKeyMut c k (Req.executeOnKey k)
  | .loadGivenKeys ks =>
      let (c1, evs1) := MapFeatNearCache.invalidateCacheBatch c ks
      let (c2, evs2) := Map.mutInternal c1 (Req.loadGivenKeys ks)
      (c2, evs1 ++ evs2)

/-- `Map._get_internal`: encode `map_get` request, invoke on the key; the
handler deserializes the response value (which we pass in as `remoteVal`,
the value the cluster returns for the key). -/
def Map.getInternal (c : NearCache κ ν) (k : κ) (remoteVal : ν) :
    ν × NearCache κ ν × List (MapEvent κ) :=
  (remoteVal, c, [MapEvent.remoteInvoke (Req.get k)])

/-- `MapFeatNearCache._get_internal`: try the near cache; on a hit return an
`ImmediateFuture` of the cached value, on a `KeyError` miss run the base
internal and continue with `_update_cache`, which stores the future's result
under the serialized key and returns it. -/
def MapFeatNearCache.getInternal (c : NearCache κ ν) (k : κ) (remoteVal : ν) :
    ν × NearCache κ ν × List (MapEvent κ) :=
  match NearCache.lookup c k with
  | some v => (v, c, [])
  | none =>
      let (r, c1, evs) := Map.getInternal c k remoteVal
      (r, NearCache.insert c1 k r, evs)

/-- `MapFeatNearCache._handle_invalidation(key, source_uuid, partition_uuid,
sequence)`: a `None` key clears the whole cache, otherwise exactly that key
is invalidated.  The uuid and sequence arguments are taken but unused. -/
def MapFeatNearCache.handleInvalidation (c : NearCache κ ν) (key : Option κ)
    (_sourceUuid _partitionUuid : Nat) (_sequence : Nat) : NearCache κ ν :=
  match key with
  | none => NearCache.clear c
  | some k => NearCache.invalidate c k

/-- `MapFeatNearCache._handle_batch_invalidation(keys, source_uuids,
partition_uuids, sequences)`: invalidate each key of the batch, in order;
the parallel uuid and sequence lists are taken but unused. -/
def MapFeatNearCache.handleBatchInvalidation (c : NearCache κ ν)
    (keys : List κ) (_sourceUuids _partitionUuids : List Nat)
    (_sequences : List Nat) : NearCache κ ν :=
  keys.foldl (fun acc k => NearCache.invalidate acc k) c

/-- `MapFeatNearCache.clear`: `self._near_cache._clear()`, then
`super().clear()` which invokes the `map_clear` request. -/
def MapFeatNearCache.clearOp (c : NearCache κ ν) :
    NearCache κ ν × List (MapEvent κ) :=
  let c1 := NearCache.clear c
  (c1, [MapEvent.localClear, MapEvent.remoteInvoke Req.mapClear])

/-- `MapFeatNearCache.evict_all`: `self._near_cache.clear()`, then
`super().evict_all()` which invokes the `map_evict_all` request. -/
def MapFeatNearCache.evictAllOp (c : NearCache κ ν) :
    NearCache κ ν × List (MapEvent κ) :=
  let c1 := NearCache.clear c
  (c1, [MapEvent.localClear, MapEvent.remoteInvoke Req.evictAll])

/-- `MapFeatNearCache.load_all(keys, replace_existing_values)`: clear the
near cache only when `keys is None and replace_existing_values`; then
`super().load_all(...)` — the base class sends the map-wide `map_load_all`
request when `keys` is falsy (`None` or the empty list) and otherwise
dispatches to `self._load_all_internal`, which in `MapFeatNearCache`
invalidates each given key before invoking `map_load_given_keys`. -/
def MapFeatNearCache.loadAllOp (c : NearCache κ ν) (keys : Option (List κ))
    (replaceExistingValues : Bool) : NearCache κ ν × List (MapEvent κ) :=
  let (c1, evs1) :=
    if keys.isNone && replaceExistingValues then
      (NearCache.clear c, [MapEvent.localClear])
    else (c, [])
  match keys with
  | some ks =>
      if ks.isEmpty then
        (c1, evs1 ++ [MapEvent.remoteInvoke (Req.loadAll replaceExistingValues)])
      else
        let (c2, evs2) := MapFeatNearCache.runMut c1 (MutOp.loadGivenKeys ks)
        (c2, evs1 ++ evs2)
  | none =>
      (c1, evs1 ++ [MapEvent.remoteInvoke (Req.loadAll replaceExistingValues)])

end MapOps

/-! ## Invalidation event streams

The listener registered by `_add_near_cache_invalidation_listener` dispatches
each incoming invalidation message to `_handle_invalidation` (single entry:
key or `None`, source member uuid, partition uuid, sequence) or
`_handle_batch_invalidation` (parallel lists of the same fields). -/

/-- A single-entry invalidation event's fields, as delivered to
`_handle_invalidation`. -/
structure SingleInvalidation (κ : Type) where
  key : Option κ
  sourceUuid : Nat
  partitionUuid : Nat
  sequence : Nat
  deriving DecidableEq

/-- An invalidation message delivered to the near-cache listener. -/
inductive InvalidationEvent (κ : Type) where
  | single (e : SingleInvalidation κ)
  | batch (keys : List κ) (sourceUuids partitionUuids : List Nat)
      (sequences : List Nat)
  deriving DecidableEq

section InvalidationStream

variable {κ ν : Type} [DecidableEq κ]

/-- Dispatch one invalidation message to the matching handler. -/
def applyInvalidationEvent (c : NearCache κ ν) :
    InvalidationEvent κ → NearCache κ ν
  | .single e =>
      MapFeatNearCache.handleInvalidation c e.key e.sourceUuid
        e.partitionUuid e.sequence
  | .batch ks su pu seqs =>
      MapFeatNearCache.handleBatchInvalidation c ks su pu seqs

/-- Deliver a stream of invalidation messages in received order. -/
def runInvalidationEvents (c : NearCache κ ν)
    (evs : List (InvalidationEvent κ)) : NearCache κ ν :=
  evs.foldl applyInvalidationEvent c

/-- The sequence numbers observed across a stream, in delivery order. -/
def observedSequences : List (InvalidationEvent κ) → List Nat
  | [] => []
  | .single e :: rest => e.sequence :: observedSequences rest
  | .batch _ _ _ seqs :: rest => seqs ++ observedSequences rest

/-- A gap in observed sequence numbers: two successive observations skip at
least one number. -/
def seqGap : List Nat → Bool
  | a :: b :: rest => (a + 1 < b) || seqGap (b :: rest)
  | _ => false

/-- The same event with every sequence number replaced by `0`. -/
def InvalidationEvent.zeroSequences : InvalidationEvent κ → InvalidationEvent κ
  | .single e => .single { e with sequence := 0 }
  | .batch ks su pu seqs => .batch ks su pu (seqs.map fun _ => 0)

/-- Whether the event is a single event with a `None` key (the full-clear
signal). -/
def InvalidationEvent.mentionsNullKey : InvalidationEvent κ → Bool
  | .single e => e.key.isNone
  | .batch _ _ _ _ => false

/-- The keys an event names for invalidation. -/
def InvalidationEvent.namedKeys : InvalidationEvent κ → List κ
  | .single e => e.key.toList
  | .batch ks _ _ _ => ks

end InvalidationStream

/-! ## The blocking facade (`BlockingMap`)

`BlockingMap` wraps a `Map` (or `MapFeatNearCache`); every operation method
delegates to the wrapped proxy's method of the same name with the same
arguments and calls `.result()` on the returned future.  Opaque payloads
(predicates, aggregators, projections, entry processors, listener callbacks,
registration ids, times) are modelled as `Nat`; optional arguments as
`Option`. -/

/-- An asynchronous result: `.result` blocks until resolution and returns
the resolved value. -/
structure Future (α : Type) where
  result : α

/-- The map-facing operation surface: one constructor per `BlockingMap`
operation method, carrying exactly the arguments the method forwards. -/
inductive MapApiOp (K V : Type) where
  | addEntryListener (includeValue : Bool) (key : Option K)
      (predicate : Option Nat)
      (addedFunc removedFunc updatedFunc evictedFunc evictAllFunc
        clearAllFunc mergedFunc expiredFunc loadedFunc : Option Nat)
  | addIndex (attributes : Option (List Nat)) (indexType : Nat)
      (name : Option Nat) (bitmapIndexOptions : Option Nat)
  | addInterceptor (interceptor : Nat)
  | aggregate (aggregator : Nat) (predicate : Option Nat)
  | clear
  | containsKey (key : K)
  | containsValue (value : V)
  | delete (key : K)
  | entrySet (predicate : Option Nat)
  | evict (key : K)
  | evictAll
  | executeOnEntries (entryProcessor : Nat) (predicate : Option Nat)
  | executeOnKey (key : K) (entryProcessor : Nat)
  | executeOnKeys (keys : List K) (entryProcessor : Nat)
  | flush
  | forceUnlock (key : K)
  | get (key : K)
  | getAll (keys : List K)
  | getEntryView (key : K)
  | isEmpty
  | isLocked (key : K)
  | keySet (predicate : Option Nat)
  | loadAll (keys : Option (List K)) (replaceExistingValues : Bool)
  | lock (key : K) (leaseTime : Option Nat)
  | project (projection : Nat) (predicate : Option Nat)
  | put (key : K) (value : V) (ttl maxIdle : Option Nat)
  | putAll (entries : List (K × V))
  | putIfAbsent (key : K) (value : V) (ttl maxIdle : Option Nat)
  | putTransient (key : K) (value : V) (ttl maxIdle : Option Nat)
  | remove (key : K)
  | removeIfSame (key : K) (value : V)
  | removeEntryListener (registrationId : Nat)
  | removeInterceptor (registrationId : Nat)
  | replace (key : K) (value : V)
  | replaceIfSame (key : K) (oldValue newValue : V)
  | set (key : K) (value : V) (ttl maxIdle : Option Nat)
  | setTtl (key : K) (ttl : Nat)
  | size
  | tryLock (key : K) (leaseTime : Option Nat) (timeout : Nat)
  | tryPut (key : K) (value : V) (timeout : Nat)
  | tryRemove (key : K) (timeout : Nat)
  | unlock (key : K)
  | values (predicate : Option Nat)

/-- `BlockingMap`'s operation methods: one match arm per method, each
transliterated as `self._wrapped.<op>(<same args>).result()`. -/
def BlockingMap.call {K V R : Type} (wrapped : MapApiOp K V → Future R) :
    MapApiOp K V → R
  | .addEntryListener iv k p f1 f2 f3 f4 f5 f6 f7 f8 f9 =>
      (wrapped (.addEntryListener iv k p f1 f2 f3 f4 f5 f6 f7 f8 f9)).result
  | .addIndex attrs it n bio => (wrapped (.addIndex attrs it n bio)).result
  | .addInterceptor i => (wrapped (.addInterceptor i)).result
  | .aggregate a p => (wrapped (.aggregate a p)).result
  | .clear => (wrapped .clear).result
  | .containsKey k => (wrapped (.containsKey k)).result
  | .containsValue v => (wrapped (.containsValue v)).result
  | .delete k => (wrapped (.delete k)).result
  | .entrySet p => (wrapped (.entrySet p)).result
  | .evict k => (wrapped (.evict k)).result
  | .evictAll => (wrapped .evictAll).result
  | .executeOnEntries ep p => (wrapped (.executeOnEntries ep p)).result
  | .executeOnKey k ep => (wrapped (.executeOnKey k ep)).result
  | .executeOnKeys ks ep => (wrapped (.executeOnKeys ks ep)).result
  | .flush => (wrapped .flush).result
  | .forceUnlock k => (wrapped (.forceUnlock k)).result
  | .get k => (wrapped (.get k)).result
  | .getAll ks => (wrapped (.getAll ks)).result
  | .getEntryView k => (wrapped (.getEntryView k)).result
  | .isEmpty => (wrapped .isEmpty).result
  | .isLocked k => (wrapped (.isLocked k)).result
  | .keySet p => (wrapped (.keySet p)).result
  | .loadAll ks rep => (wrapped (.loadAll ks rep)).result
  | .lock k lt => (wrapped (.lock k lt)).result
  | .project pr p => (wrapped (.project pr p)).result
  | .put k v t mi => (wrapped (.put k v t mi)).result
  | .putAll es => (wrapped (.putAll es)).result
  | .putIfAbsent k v t mi => (wrapped (.putIfAbsent k v t mi)).result
  | .putTransient k v t mi => (wrapped (.putTransient k v t mi)).result
  | .remove k => (wrapped (.remove k)).result
  | .removeIfSame k v => (wrapped (.removeIfSame k v)).result
  | .removeEntryListener rid => (wrapped (.removeEntryListener rid)).result
  | .removeInterceptor rid => (wrapped (.removeInterceptor rid)).result
  | .replace k v => (wrapped (.replace k v)).result
  | .replaceIfSame k ov nv => (wrapped (.replaceIfSame k ov nv)).result
  | .set k v t mi => (wrapped (.set k v t mi)).result
  | .setTtl k t => (wrapped (.setTtl k t)).result
  | .size => (wrapped .size).result
  | .tryLock k lt t => (wrapped (.tryLock k lt t)).result
  | .tryPut k v t => (wrapped (.tryPut k v t)).result
  | .tryRemove k t => (wrapped (.tryRemove k t)).result
  | .unlock k => (wrapped (.unlock k)).result
  | .values p => (wrapped (.values p)).result

/-- Modelled from the spec: "A synchronous facade may wrap any async
operation by blocking the calling context on the future without duplicating
logic" — the facade is, uniformly in the operation, the wrapped call's
future waited upon. -/
def blockingFacadeSpec {K V R : Type} (wrapped : MapApiOp K V → Future R)
    (op : MapApiOp K V) : R :=
  (wrapped op).result

/-! ## Null-argument checking on the public `Map` methods

Each key/value-taking public method begins with `check_not_none` on its key
and/or value argument, before `_to_data` serialization, request encoding or
invocation. -/

/-- Modelled from the spec: `hazelcast.util.check_not_none` (not under
`src/`), which raises `AssertionError` when the checked argument is
`None`. -/
inductive PyErr where
  | assertionError
  deriving DecidableEq

/-- The externally visible steps of a successful public map call. -/
inductive CallStep where
  | toData
  | encodeRequest
  | invoke
  deriving DecidableEq

/-- `check_not_none(val, message)`: `AssertionError` on `None`. -/
def checkNotNone {α : Type} : Option α → Except PyErr α
  | none => .error .assertionError
  | some x => .ok x

/-- The public key/value-taking `Map` methods, with their nullable key and
value arguments kept as received (`Option`), before any checking. -/
inductive PublicOp (K V : Type) where
  | get (key : Option K)
  | put (key : Option K) (value : Option V) (ttl maxIdle : Option Nat)
  | set (key : Option K) (value : Option V) (ttl maxIdle : Option Nat)
  | remove (key : Option K)
  | delete (key : Option K)
  | replace (key : Option K) (value : Option V)
  | replaceIfSame (key : Option K) (oldValue newValue : Option V)
  | removeIfSame (key : Option K) (value : Option V)
  | evict (key : Option K)
  | containsKey (key : Option K)
  | containsValue (value : Option V)
  | lock (key : Option K) (leaseTime : Option Nat)
  | tryLock (key : Option K) (leaseTime : Option Nat) (timeout : Nat)
  | unlock (key : Option K)
  | forceUnlock (key : Option K)
  | tryPut (key : Option K) (value : Option V) (timeout : Nat)
  | tryRemove (key : Option K) (timeout : Nat)
  | putIfAbsent (key : Option K) (value : Option V) (ttl maxIdle : Option Nat)
  | putTransient (key : Option K) (value : Option V) (ttl maxIdle : Option Nat)
  | setTtl (key : Option K) (ttl : Option Nat)
  | executeOnKey (key : Option K) (entryProcessor : Nat)
  | getEntryView (key : Option K)
  | isLocked (key : Option K)

/-- Each public method's prologue, transliterated: its `check_not_none`
calls in source order, then the serialization / request-building / invoking
steps it performs.  An `AssertionError` therefore aborts the call before any
step is recorded. -/
def runPublic {K V : Type} : PublicOp K V → Except PyErr (List CallStep)
  | .get key => do
      let _ ← checkNotNone key
      pure [.toData, .encodeRequest, .invoke]
  | .put key value _ _ => do
      let _ ← checkNotNone key
      let _ ← checkNotNone value
      pure [.toData, .toData, .encodeRequest, .invoke]
  | .set key value _ _ => do
      let _ ← checkNotNone key
      let _ ← checkNotNone value
      pure [.toData, .toData, .encodeRequest, .invoke]
  | .remove key => do
      let _ ← checkNotNone key
      pure [.toData, .encodeRequest, .invoke]
  | .delete key => do
      let _ ← checkNotNone key
      pure [.toData, .encodeRequest, .invoke]
  | .replace key value => do
      let _ ← checkNotNone key
      let _ ← checkNotNone value
      pure [.toData, .toData, .encodeRequest, .invoke]
  | .replaceIfSame key oldValue newValue => do
      let _ ← checkNotNone key
      let _ ← checkNotNone oldValue
      let _ ← checkNotNone newValue
      pure [.toData, .toData, .toData, .encodeRequest, .invoke]
  | .removeIfSame key value => do
      let _ ← checkNotNone key
      let _ ← checkNotNone value
      pure [.toData, .toData, .encodeRequest, .invoke]
  | .evict key => do
      let _ ← checkNotNone key
      pure [.toData, .encodeRequest, .invoke]
  | .containsKey key => do
      let _ ← checkNotNone key
      pure [.toData, .encodeRequest, .invoke]
  | .containsValue value => do
      let _ ← checkNotNone value
      pure [.toData, .encodeRequest, .invoke]
  | .lock key _ => do
      let _ ← checkNotNone key
      pure [.toData, .encodeRequest, .invoke]
  | .tryLock key _ _ => do
      let _ ← checkNotNone key
      pure [.toData, .encodeRequest, .invoke]
  | .unlock key => do
      let _ ← checkNotNone key
      pure [.toData, .encodeRequest, .invoke]
  | .forceUnlock key => do
      let _ ← checkNotNone key
      pure [.toData, .encodeRequest, .invoke]
  | .tryPut key value _ => do
      let _ ← checkNotNone key
      let _ ← checkNotNone value
      pure [.toData, .toData, .encodeRequest, .invoke]
  | .tryRemove key _ => do
      let _ ← checkNotNone key
      pure [.toData, .encodeRequest, .invoke]
  | .putIfAbsent key value _ _ => do
      let _ ← checkNotNone key
      let _ ← checkNotNone value
      pure [.toData, .toData, .encodeRequest, .invoke]
  | .putTransient key value _ _ => do
      let _ ← checkNotNone key
      let _ ← checkNotNone value
      pure [.toData, .toData, .encodeRequest, .invoke]
  | .setTtl key ttl => do
      let _ ← checkNotNone key
      let _ ← checkNotNone ttl
      pure [.toData, .encodeRequest, .invoke]
  | .executeOnKey key _ => do
      let _ ← checkNotNone key
      pure [.toData, .toData, .encodeRequest, .invoke]
  | .getEntryView key => do
      let _ ← checkNotNone key
      pure [.toData, .encodeRequest, .invoke]
  | .isLocked key => do
      let _ ← checkNotNone key
      pure [.toData, .encodeRequest, .invoke]

/-- Whether the operation's key argument is `None`. -/
def PublicOp.nullKey {K V : Type} : PublicOp K V → Bool
  | .get key | .put key _ _ _ | .set key _ _ _ | .remove key | .delete key
  | .replace key _ | .replaceIfSame key _ _ | .removeIfSame key _
  | .evict key | .containsKey key | .lock key _ | .tryLock key _ _
  | .unlock key | .forceUnlock key | .tryPut key _ _ | .tryRemove key _
  | .putIfAbsent key _ _ _ | .putTransient key _ _ _ | .setTtl key _
  | .executeOnKey key _ | .getEntryView key | .isLocked key => key.isNone
  | .containsValue _ => false

/-- Whether one of the operation's (old/new) value arguments is `None`. -/
def PublicOp.nullValue {K V : Type} : PublicOp K V → Bool
  | .put _ value _ _ | .set _ value _ _ | .replace _ value
  | .removeIfSame _ value | .tryPut _ value _ | .putIfAbsent _ value _ _
  | .putTransient _ value _ _ | .containsValue value => value.isNone
  | .replaceIfSame _ oldValue newValue => oldValue.isNone || newValue.isNone
  | _ => false

/-! ## `AddressHelper` (`hazelcast/core.py`)

Python strings become `List Char`; `str.find` / `str.rfind` (single-char
needles, with Python's negative-start normalization), slicing with
non-negative bounds, and `int(...)` (returning `none` where Python raises
`ValueError`) are embedded directly. -/

/-- Python's start-index normalization for `str.find(sub, start)`:
a negative start counts from the end, clamped at `0`. -/
def pyNormStart (len : Nat) (start : Int) : Nat :=
  if start < 0 then (max 0 (len + start)).toNat else start.toNat

/-- `address.find(c, start)` for a single-character needle: the least index
`≥ start` holding `c`, else `-1`. -/
def pyFind (s : List Char) (c : Char) (start : Int) : Int :=
  let st := pyNormStart s.length start
  match (s.drop st).findIdx? (· = c) with
  | some i => ((st + i : Nat) : Int)
  | none => -1

/-- `address.rfind(c)`: the greatest index holding `c`, else `-1`. -/
def pyRfind (s : List Char) (c : Char) : Int :=
  match s.reverse.findIdx? (· = c) with
  | some i => ((s.length - 1 - i : Nat) : Int)
  | none => -1

/-- `s[a:b]` for the non-negative bounds arising in `address_from_str`. -/
def pySlice (s : List Char) (a b : Int) : List Char :=
  (s.take b.toNat).drop a.toNat

/-- The digits of a decimal literal, or `none` if empty or non-digit. -/
def digitsToNat? (ds : List Char) : Option Nat :=
  if ds ≠ [] ∧ ds.all (·.isDigit) then
    some (ds.foldl (fun acc d => acc * 10 + (d.toNat - 48)) 0)
  else none

/-- Python `int(s)` on a decimal string: surrounding whitespace stripped, an
optional sign, then digits; `none` where Python raises `ValueError`. -/
def pyInt (s : List Char) : Option Int :=
  let t := ((s.dropWhile (·.isWhitespace)).reverse.dropWhile
    (·.isWhitespace)).reverse
  match t with
  | '-' :: ds => (digitsToNat? ds).map fun n => -(n : Int)
  | '+' :: ds => (digitsToNat? ds).map fun n => (n : Int)
  | ds => (digitsToNat? ds).map fun n => (n : Int)

/-- `hazelcast.core.Address`: a host and a port (`-1` = no port). -/
structure PyAddress where
  host : List Char
  port : Int
  deriving DecidableEq

/-- `AddressHelper.address_from_str(address)` (default `port=-1`): bracketed
IPv6 with optional trailing `:port`; bare IPv6 (several colons, no
brackets); `host:port`; or a bare host.  `none` where `int(...)` raises. -/
def addressFromStr (address : List Char) : Option PyAddress :=
  let bracketStart := pyFind address '[' 0
  let bracketEnd := pyFind address ']' bracketStart
  let colon := pyFind address ':' 0
  let lastColon := pyRfind address ':'
  if -1 < colon ∧ colon < lastColon then
    if bracketStart = 0 ∧ bracketEnd > bracketStart then
      let host := pySlice address (bracketStart + 1) bracketEnd
      if lastColon = bracketEnd + 1 then
        (pyInt (address.drop (lastColon + 1).toNat)).map fun p =>
          ⟨host, p⟩
      else some ⟨host, -1⟩
    else some ⟨address, -1⟩
  else if colon > 0 ∧ colon = lastColon then
    (pyInt (address.drop (colon + 1).toNat)).map fun p =>
      ⟨pySlice address 0 colon, p⟩
  else some ⟨address, -1⟩

/-- `AddressHelper.get_possible_addresses(address)`: with a parsed port, one
attempt at it; without, three attempts at 5701, 5702, 5703.  The first
address is the primary, the rest are secondaries. -/
def getPossibleAddresses (address : List Char) :
    Option (List PyAddress × List PyAddress) :=
  (addressFromStr address).map fun a =>
    let possiblePort := a.port
    let portTryCount := if possiblePort = -1 then 3 else 1
    let possiblePort := if possiblePort = -1 then (5701 : Int) else possiblePort
    let addresses := (List.range portTryCount).map fun i =>
      PyAddress.mk a.host (possiblePort + i)
    (addresses.take 1, addresses.drop 1)

/-! ## Frames and fast-forward

Modelled from the spec: `hazelcast/protocol/client_message.py` (the `Frame`
and `InboundMessage` classes and `CodecUtil`) is not under `src/`; only its
unit tests are.  A frame is a byte payload plus a flag bitset; the
begin-structure flag is bit 12 and the end-structure flag bit 11 (the test's
`BEGIN_FRAME = Frame(bytearray(0), 1 << 12)`, `END_FRAME = Frame(bytearray(),
1 << 11)`), the is-null flag bit 10.  An inbound message is its frame list
viewed through a forward-only cursor, which we carry as the list of frames
not yet consumed. -/

/-- A wire frame: byte payload plus flag bitset. -/
structure Frame where
  content : List Nat
  flags : Nat
  deriving DecidableEq

/-- Begin-structure flag (bit 12). -/
def Frame.isBeginFrame (f : Frame) : Bool := f.flags.testBit 12

/-- End-structure flag (bit 11). -/
def Frame.isEndFrame (f : Frame) : Bool := f.flags.testBit 11

/-- Is-null flag (bit 10). -/
def Frame.isNullFrame (f : Frame) : Bool := f.flags.testBit 10

/-- The bare begin-structure marker frame. -/
def BEGIN_FRAME : Frame := ⟨[], 2 ^ 12⟩

/-- The bare end-structure marker frame. -/
def END_FRAME : Frame := ⟨[], 2 ^ 11⟩

/-- The null-value marker frame. -/
def NULL_FRAME : Frame := ⟨[], 2 ^ 10⟩

/-- `InboundMessage.next_frame()`: consume and return the frame under the
cursor. -/
def nextFrame (frames : List Frame) : Option (Frame × List Frame) :=
  match frames with
  | [] => none
  | f :: rest => some (f, rest)

/-- Modelled from the spec:
`CodecUtil.fast_forward_to_end_frame` — "decrements a nesting counter while
advancing the cursor past a full begin/end-bracketed region without
interpreting its contents".  `expected` counts the end frames still owed;
each begin frame increments it, each end frame decrements it, and the walk
stops when it reaches zero, with the cursor on the frame after that end
frame.  `none` on an unbalanced message. -/
def fastForwardAux : List Frame → Nat → Option (List Frame)
  | [], _ => none
  | f :: rest, expected =>
      if f.isEndFrame then
        if expected = 1 then some rest
        else fastForwardAux rest (expected - 1)
      else if f.isBeginFrame then fastForwardAux rest (expected + 1)
      else fastForwardAux rest expected

/-- Fast-forward called, as in the codecs, after the structure's begin frame
has been consumed: one end frame is owed. -/
def fastForwardToEndFrame (frames : List Frame) : Option (List Frame) :=
  fastForwardAux frames 1

/-- Skipping a structure whose begin frame is under the cursor, as in
`InboundMessageTest.test_fast_forward`: `next_frame()` consumes the begin
frame, then `fast_forward_to_end_frame` walks past the bracketed region. -/
def skipStructure (frames : List Frame) : Option (List Frame) :=
  (nextFrame frames).bind fun p => fastForwardToEndFrame p.2

/-- A run of frames forming sibling protocol values: either nothing, a plain
(non-marker) frame followed by more siblings, or a begin/end-bracketed nested
structure followed by more siblings. -/
inductive FrameForest where
  | nil
  | leafCons (f : Frame) (rest : FrameForest)
  | nodeCons (inner : FrameForest) (rest : FrameForest)

/-- The frames of the run: nested structures contribute their begin marker,
their own frames, and their end marker. -/
def FrameForest.encode : FrameForest → List Frame
  | .nil => []
  | .leafCons f rest => f :: rest.encode
  | .nodeCons inner rest =>
      BEGIN_FRAME :: inner.encode ++ END_FRAME :: rest.encode

/-- Plain frames of the run carry neither structure marker. -/
def FrameForest.ok : FrameForest → Bool
  | .nil => true
  | .leafCons f rest => !f.isBeginFrame && !f.isEndFrame && rest.ok
  | .nodeCons inner rest => inner.ok && rest.ok

/-! ## Builtin codecs

Modelled from the spec: `hazelcast/protocol/builtin.py`
(`FixSizedTypesCodec`, `StringCodec`, `ByteArrayCodec`, `CodecUtil`,
`ListMultiFrameCodec`, `EntryListCodec`) is not under `src/`; only its unit
tests are.  Fixed-size scalars are packed little-endian at byte offsets
inside one frame's buffer; variable-size values occupy their own frames;
composites nest as begin/end-bracketed frame runs; `None` is a dedicated
null-flagged frame, distinct from an empty bracketed run.  Decoders thread
the not-yet-consumed frame list. -/

/-- Overwrite `bytes` into `buf` starting at `offset` (Python
`pack_into`). -/
def writeBytesAt (buf : List Nat) (offset : Nat) (bytes : List Nat) :
    List Nat :=
  buf.take offset ++ bytes ++ buf.drop (offset + bytes.length)

/-- Read `width` bytes of `buf` starting at `offset` (Python
`unpack_from`). -/
def readBytesAt (buf : List Nat) (offset width : Nat) : List Nat :=
  (buf.drop offset).take width

/-- The `width` little-endian bytes of `n`. -/
def natToLEBytes (width n : Nat) : List Nat :=
  match width with
  | 0 => []
  | w + 1 => n % 256 :: natToLEBytes w (n / 256)

/-- The number whose little-endian bytes these are. -/
def leBytesToNat (bytes : List Nat) : Nat :=
  bytes.foldr (fun b acc => b + 256 * acc) 0

namespace FixSizedTypesCodec

/-- `encode_boolean(buf, offset, value)`: one byte, `1` or `0`. -/
def encodeBoolean (buf : List Nat) (offset : Nat) (value : Bool) : List Nat :=
  writeBytesAt buf offset [if value then 1 else 0]

/-- `decode_boolean(buf, offset)`: the byte equals `1`. -/
def decodeBoolean (buf : List Nat) (offset : Nat) : Bool :=
  readBytesAt buf offset 1 = [1]

/-- `encode_byte(buf, offset, value)`. -/
def encodeByte (buf : List Nat) (offset : Nat) (value : Nat) : List Nat :=
  writeBytesAt buf offset [value % 256]

/-- `decode_byte(buf, offset)`. -/
def decodeByte (buf : List Nat) (offset : Nat) : Nat :=
  leBytesToNat (readBytesAt buf offset 1)

/-- Two's-complement encoding of a signed scalar into `width` bytes. -/
def encodeSigned (width : Nat) (buf : List Nat) (offset : Nat)
    (value : Int) : List Nat :=
  writeBytesAt buf offset (natToLEBytes width ((value % (2 ^ (8 * width))).toNat))

/-- Two's-complement decoding of a signed scalar of `width` bytes. -/
def decodeSigned (width : Nat) (buf : List Nat) (offset : Nat) : Int :=
  let n := leBytesToNat (readBytesAt buf offset width)
  if n < 2 ^ (8 * width - 1) then (n : Int) else (n : Int) - 2 ^ (8 * width)

/-- `encode_short` — 2 bytes little-endian, two's complement. -/
def encodeShort (buf : List Nat) (offset : Nat) (value : Int) : List Nat :=
  encodeSigned 2 buf offset value

/-- `decode_short`. -/
def decodeShort (buf : List Nat) (offset : Nat) : Int :=
  decodeSigned 2 buf offset

/-- `encode_int` — 4 bytes little-endian, two's complement. -/
def encodeInt (buf : List Nat) (offset : Nat) (value : Int) : List Nat :=
  encodeSigned 4 buf offset value

/-- `decode_int`. -/
def decodeInt (buf : List Nat) (offset : Nat) : Int :=
  decodeSigned 4 buf offset

/-- `encode_long` — 8 bytes little-endian, two's complement. -/
def encodeLong (buf : List Nat) (offset : Nat) (value : Int) : List Nat :=
  encodeSigned 8 buf offset value

/-- `decode_long`. -/
def decodeLong (buf : List Nat) (offset : Nat) : Int :=
  decodeSigned 8 buf offset

/-- `encode_uuid(buf, offset, value)`: a null-flag byte followed by the 16
bytes of the uuid (the uuid's 128-bit value, as a number). -/
def encodeUuid (buf : List Nat) (offset : Nat) (value : Option Nat) :
    List Nat :=
  match value with
  | none => writeBytesAt buf offset (1 :: natToLEBytes 16 0)
  | some u => writeBytesAt buf offset (0 :: natToLEBytes 16 u)

/-- `decode_uuid(buf, offset)`: `none` when the null-flag byte is set. -/
def decodeUuid (buf : List Nat) (offset : Nat) : Option Nat :=
  if leBytesToNat (readBytesAt buf offset 1) ≠ 0 then none
  else some (leBytesToNat (readBytesAt buf (offset + 1) 16))

end FixSizedTypesCodec

/-- UTF-8 bytes of one code point. -/
def utf8EncodeChar (c : Nat) : List Nat :=
  if c < 0x80 then [c]
  else if c < 0x800 then [0xC0 + c / 64, 0x80 + c % 64]
  else if c < 0x10000 then
    [0xE0 + c / 4096, 0x80 + c / 64 % 64, 0x80 + c % 64]
  else
    [0xF0 + c / 262144, 0x80 + c / 4096 % 64, 0x80 + c / 64 % 64,
      0x80 + c % 64]

/-- UTF-8 bytes of a code-point sequence. -/
def utf8Encode (s : List Nat) : List Nat :=
  (s.map utf8EncodeChar).flatten

/-- Whether a byte is a UTF-8 continuation byte. -/
def isCont (b : Nat) : Bool := 0x80 ≤ b && b < 0xC0

mutual

/-- UTF-8 decoding back to code points; `none` on a malformed sequence.
The first byte selects the sequence length; the continuation bytes are
consumed by the matching tail decoder. -/
def utf8Decode : List Nat → Option (List Nat)
  | [] => some []
  | b0 :: rest =>
      if b0 < 0x80 then (utf8Decode rest).map (b0 :: ·)
      else if b0 < 0xC0 then none
      else if b0 < 0xE0 then utf8DecodeTail2 b0 rest
      else if b0 < 0xF0 then utf8DecodeTail3 b0 rest
      else if b0 < 0xF8 then utf8DecodeTail4 b0 rest
      else none
termination_by l => 2 * l.length
decreasing_by all_goals (simp_wf; try omega)

/-- The continuation byte of a two-byte sequence. -/
def utf8DecodeTail2 (b0 : Nat) : List Nat → Option (List Nat)
  | b1 :: rest1 =>
      if isCont b1 then
        (utf8Decode rest1).map (((b0 - 0xC0) * 64 + (b1 - 0x80)) :: ·)
      else none
  | [] => none
termination_by l => 2 * l.length + 1
decreasing_by all_goals (simp_wf; try omega)

/-- The continuation bytes of a three-byte sequence. -/
def utf8DecodeTail3 (b0 : Nat) : List Nat → Option (List Nat)
  | b1 :: b2 :: rest2 =>
      if isCont b1 && isCont b2 then
        (utf8Decode rest2).map
          (((b0 - 0xE0) * 4096 + (b1 - 0x80) * 64 + (b2 - 0x80)) :: ·)
      else none
  | _ => none
termination_by l => 2 * l.length + 1
decreasing_by all_goals (simp_wf; try omega)

/-- The continuation bytes of a four-byte sequence. -/
def utf8DecodeTail4 (b0 : Nat) : List Nat → Option (List Nat)
  | b1 :: b2 :: b3 :: rest3 =>
      if isCont b1 && isCont b2 && isCont b3 then
        (utf8Decode rest3).map
          (((b0 - 0xF0) * 262144 + (b1 - 0x80) * 4096
            + (b2 - 0x80) * 64 + (b3 - 0x80)) :: ·)
      else none
  | _ => none
termination_by l => 2 * l.length + 1
decreasing_by all_goals (simp_wf; try omega)

end

namespace StringCodec

/-- `StringCodec.encode`: the string's UTF-8 bytes as one frame's payload
(strings as code-point sequences). -/
def encode (s : List Nat) : List Frame := [⟨utf8Encode s, 0⟩]

/-- `StringCodec.decode`: consume one frame, decode its payload. -/
def decode (frames : List Frame) : Option (List Nat × List Frame) :=
  match frames with
  | f :: rest => (utf8Decode f.content).map fun s => (s, rest)
  | [] => none

end StringCodec

namespace ByteArrayCodec

/-- `ByteArrayCodec.encode`: the bytes as one frame's payload. -/
def encode (b : List Nat) : List Frame := [⟨b, 0⟩]

/-- `ByteArrayCodec.decode`: consume one frame, return its payload. -/
def decode (frames : List Frame) : Option (List Nat × List Frame) :=
  match frames with
  | f :: rest => some (f.content, rest)
  | [] => none

end ByteArrayCodec

namespace CodecUtil

/-- `CodecUtil.encode_nullable`: `None` becomes the dedicated null frame,
anything else its own encoding. -/
def encodeNullable {α : Type} (enc : α → List Frame) (x : Option α) :
    List Frame :=
  match x with
  | none => [NULL_FRAME]
  | some v => enc v

/-- `CodecUtil.decode_nullable`: a null-flagged frame under the cursor means
`None`, otherwise defer to the decoder. -/
def decodeNullable {α : Type} (dec : List Frame → Option (α × List Frame))
    (frames : List Frame) : Option (Option α × List Frame) :=
  match frames with
  | f :: rest =>
      if f.isNullFrame then some (none, rest)
      else (dec (f :: rest)).map fun p => (some p.1, p.2)
  | [] => none

end CodecUtil

namespace ListMultiFrameCodec

/-- `ListMultiFrameCodec.encode`: begin frame, each element's frames, end
frame. -/
def encode {α : Type} (enc : α → List Frame) (xs : List α) : List Frame :=
  BEGIN_FRAME :: (xs.map enc).flatten ++ [END_FRAME]

/-- The element loop of `ListMultiFrameCodec.decode`: until the frame under
the cursor is the end frame, decode one element; the fuel bounds the walk by
the message length. -/
def decodeAux {α : Type} (dec : List Frame → Option (α × List Frame)) :
    Nat → List Frame → Option (List α × List Frame)
  | _, [] => none
  | 0, _ :: _ => none
  | fuel + 1, f :: rest =>
      if f.isEndFrame then some ([], rest)
      else
        (dec (f :: rest)).bind fun (a, rest') =>
          (decodeAux dec fuel rest').map fun (as, rest'') =>
            (a :: as, rest'')

/-- `ListMultiFrameCodec.decode`: consume the begin frame, then elements up
to the end frame. -/
def decode {α : Type} (dec : List Frame → Option (α × List Frame))
    (frames : List Frame) : Option (List α × List Frame) :=
  match frames with
  | f :: rest =>
      if f.isBeginFrame then decodeAux dec rest.length rest else none
  | [] => none

/-- `ListMultiFrameCodec.encode_nullable`. -/
def encodeNullable {α : Type} (enc : α → List Frame)
    (xs : Option (List α)) : List Frame :=
  CodecUtil.encodeNullable (encode enc) xs

/-- `ListMultiFrameCodec.decode_nullable`. -/
def decodeNullable {α : Type} (dec : List Frame → Option (α × List Frame))
    (frames : List Frame) : Option (Option (List α) × List Frame) :=
  CodecUtil.decodeNullable (decode dec) frames

end ListMultiFrameCodec

namespace EntryListCodec

/-- `EntryListCodec.encode`: begin frame, then each entry as its key's
frames followed by its value's frames, then the end frame. -/
def encode {κ ν : Type} (encK : κ → List Frame) (encV : ν → List Frame)
    (entries : List (κ × ν)) : List Frame :=
  BEGIN_FRAME :: (entries.map fun e => encK e.1 ++ encV e.2).flatten
    ++ [END_FRAME]

/-- The entry loop of `EntryListCodec.decode`: until the frame under the
cursor is the end frame, decode a key then a value. -/
def decodeAux {κ ν : Type} (decK : List Frame → Option (κ × List Frame))
    (decV : List Frame → Option (ν × List Frame)) :
    Nat → List Frame → Option (List (κ × ν) × List Frame)
  | _, [] => none
  | 0, _ :: _ => none
  | fuel + 1, f :: rest =>
      if f.isEndFrame then some ([], rest)
      else
        (decK (f :: rest)).bind fun (k, rest') =>
          (decV rest').bind fun (v, rest'') =>
            (decodeAux decK decV fuel rest'').map fun (es, rest''') =>
              ((k, v) :: es, rest''')

/-- `EntryListCodec.decode`. -/
def decode {κ ν : Type} (decK : List Frame → Option (κ × List Frame))
    (decV : List Frame → Option (ν × List Frame)) (frames : List Frame) :
    Option (List (κ × ν) × List Frame) :=
  match frames with
  | f :: rest =>
      if f.isBeginFrame then decodeAux decK decV rest.length rest else none
  | [] => none

/-- `EntryListCodec.encode_nullable`. -/
def encodeNullable {κ ν : Type} (encK : κ → List Frame)
    (encV : ν → List Frame) (entries : Option (List (κ × ν))) : List Frame :=
  CodecUtil.encodeNullable (encode encK encV) entries

/-- `EntryListCodec.decode_nullable`. -/
def decodeNullable {κ ν : Type} (decK : List Frame → Option (κ × List Frame))
    (decV : List Frame → Option (ν × List Frame)) (frames : List Frame) :
    Option (Option (List (κ × ν)) × List Frame) :=
  CodecUtil.decodeNullable (decode decK decV) frames

end EntryListCodec

/-! ## Theorems -/

section NearCacheLemmas

variable {κ ν : Type} [DecidableEq κ]

theorem NearCache.lookup_invalidate_self (c : NearCache κ ν) (k : κ) :
    NearCache.lookup (NearCache.invalidate c k) k = none := by
  induction c with
  | nil => rfl
  | cons p rest ih =>
      by_cases h : p.1 = k <;>
        simp_all [NearCache.lookup, NearCache.invalidate, List.filter,
          List.find?]

theorem NearCache.lookup_invalidate_other (c : NearCache κ ν) (k k' : κ)
    (h : k' ≠ k) :
    NearCache.lookup (NearCache.invalidate c k) k'
      = NearCache.lookup c k' := by
  induction c with
  | nil => rfl
  | cons p rest ih =>
      by_cases hp : p.1 = k
      · have : ¬(p.1 = k') := by rw [hp]; exact fun hh => h hh.symm
        simp_all [NearCache.lookup, NearCache.invalidate, List.filter,
          List.find?]
      · by_cases hp' : p.1 = k' <;>
          simp_all [NearCache.lookup, NearCache.invalidate, List.filter,
            List.find?]

theorem NearCache.lookup_insert_self (c : NearCache κ ν) (k : κ) (v : ν) :
    NearCache.lookup (NearCache.insert c k v) k = some v := by
  simp [NearCache.lookup, NearCache.insert, List.find?]

theorem lookup_foldl_invalidate_not_mem (ks : List κ) (c : NearCache κ ν)
    (k : κ) (h : k ∉ ks) :
    NearCache.lookup (ks.foldl (fun acc x => NearCache.invalidate acc x) c) k
      = NearCache.lookup c k := by
  induction ks generalizing c with
  | nil => rfl
  | cons x rest ih =>
      have hx : k ≠ x := fun hk => h (by simp [hk])
      have hrest : k ∉ rest := fun hk => h (by simp [hk])
      simp only [List.foldl_cons]
      rw [ih _ hrest, NearCache.lookup_invalidate_other _ _ _ hx]

theorem lookup_foldl_invalidate_mem (ks : List κ) (c : NearCache κ ν)
    (k : κ) (h : k ∈ ks) :
    NearCache.lookup (ks.foldl (fun acc x => NearCache.invalidate acc x) c) k
      = none := by
  induction ks generalizing c with
  | nil => cases h
  | cons x rest ih =>
      simp only [List.foldl_cons]
      by_cases hr : k ∈ rest
      · exact ih _ hr
      · have hx : k = x := by
          rcases List.mem_cons.mp h with h1 | h1
          · exact h1
          · exact absurd h1 hr
        subst hx
        rw [lookup_foldl_invalidate_not_mem _ _ _ hr,
          NearCache.lookup_invalidate_self]

theorem applyInvalidationEvent_zeroSequences (c : NearCache κ ν)
    (e : InvalidationEvent κ) :
    applyInvalidationEvent c e.zeroSequences = applyInvalidationEvent c e := by
  cases e <;> rfl

theorem lookup_applyInvalidationEvent_not_named (c : NearCache κ ν)
    (e : InvalidationEvent κ) (k : κ) (hnull : e.mentionsNullKey = false)
    (hk : k ∉ e.namedKeys) :
    NearCache.lookup (applyInvalidationEvent c e) k
      = NearCache.lookup c k := by
  cases e with
  | single s =>
      cases hkey : s.key with
      | none => simp [InvalidationEvent.mentionsNullKey, hkey] at hnull
      | some k' =>
          have hk' : k ≠ k' := by
            simp [InvalidationEvent.namedKeys, hkey] at hk
            exact hk
          simp [applyInvalidationEvent, MapFeatNearCache.handleInvalidation,
            hkey, NearCache.lookup_invalidate_other _ _ _ hk']
  | batch ks su pu seqs =>
      have hks : k ∉ ks := by
        simpa [InvalidationEvent.namedKeys] using hk
      simpa [applyInvalidationEvent,
        MapFeatNearCache.handleBatchInvalidation] using
        lookup_foldl_invalidate_not_mem ks c k hks

end NearCacheLemmas

section ClaimC1

variable {κ ν : Type} [DecidableEq κ]

/-- **C1, counterexample.** A stream of two single-key invalidation events
with sequence numbers 1 and 3 — an observed gap (2 was missed) — delivered
to a cache holding an unrelated key `3`, does *not* clear the cache: the
handlers ignore sequence numbers, so the unrelated cached entry survives and
only the named keys are invalidated. -/
theorem claim_C1_counterexample :
    seqGap (observedSequences
      [InvalidationEvent.single ⟨some 1, 0, 0, 1⟩,
       InvalidationEvent.single ⟨some 2, 0, 0, 3⟩]) = true
    ∧ runInvalidationEvents ([(3, 30)] : NearCache Nat Nat)
        [InvalidationEvent.single ⟨some 1, 0, 0, 1⟩,
         InvalidationEvent.single ⟨some 2, 0, 0, 3⟩] ≠ []
    ∧ NearCache.lookup
        (runInvalidationEvents ([(3, 30)] : NearCache Nat Nat)
          [InvalidationEvent.single ⟨some 1, 0, 0, 1⟩,
           InvalidationEvent.single ⟨some 2, 0, 0, 3⟩]) 3 = some 30 := by
  refine ⟨by decide, by decide, by decide⟩

/-- **C1, amended.** The invalidation handlers ignore sequence numbers
entirely and perform no gap detection: delivering a stream with all sequence
numbers zeroed produces the same cache, and as long as no event is a
single event with a null key, every cached entry whose key no event names
survives — a sequence gap never triggers a full clear. -/
theorem claim_C1_no_gap_detection (evs : List (InvalidationEvent κ))
    (c : NearCache κ ν) :
    runInvalidationEvents c (evs.map InvalidationEvent.zeroSequences)
      = runInvalidationEvents c evs
    ∧ ∀ k : κ, (∀ e ∈ evs, e.mentionsNullKey = false) →
        (∀ e ∈ evs, k ∉ e.namedKeys) →
        NearCache.lookup (runInvalidationEvents c evs) k
          = NearCache.lookup c k := by
  induction evs generalizing c with
  | nil => exact ⟨rfl, fun _ _ _ => rfl⟩
  | cons e rest ih =>
      constructor
      · simp only [List.map_cons, runInvalidationEvents, List.foldl_cons,
          applyInvalidationEvent_zeroSequences]
        exact (ih (applyInvalidationEvent c e)).1
      · intro k hnull hnamed
        have h1 : NearCache.lookup
            (runInvalidationEvents (applyInvalidationEvent c e) rest) k
            = NearCache.lookup (applyInvalidationEvent c e) k :=
          (ih (applyInvalidationEvent c e)).2 k
            (fun e' he' => hnull e' (List.mem_cons_of_mem _ he'))
            (fun e' he' => hnamed e' (List.mem_cons_of_mem _ he'))
        have h2 : NearCache.lookup (applyInvalidationEvent c e) k
            = NearCache.lookup c k :=
          lookup_applyInvalidationEvent_not_named c e k
            (hnull e (List.mem_cons_self _ _))
            (hnamed e (List.mem_cons_self _ _))
        simpa [runInvalidationEvents, List.foldl_cons] using h1.trans h2

/-- Witness for the amended C1 theorem at a concrete stream and cache. -/
theorem claim_C1_no_gap_detection_witness :
    NearCache.lookup
      (runInvalidationEvents ([(5, 50)] : NearCache Nat Nat)
        [InvalidationEvent.single ⟨some 1, 0, 0, 1⟩,
         InvalidationEvent.single ⟨some 2, 0, 0, 7⟩]) 5
      = NearCache.lookup ([(5, 50)] : NearCache Nat Nat) 5 :=
  (claim_C1_no_gap_detection
    [InvalidationEvent.single ⟨some 1, 0, 0, 1⟩,
     InvalidationEvent.single ⟨some 2, 0, 0, 7⟩] [(5, 50)]).2 5
    (by decide) (by decide)

end ClaimC1

section ClaimC2

variable {κ ν : Type} [DecidableEq κ]

/-- **C2.** Every key-addressed mutating operation of the near-cache map
first emits the local invalidation(s) of its own key(s) and only then the
remote invocation — the event trace is exactly the invalidations followed by
the invoke — and afterwards a local read of any of those keys misses the
cache. -/
theorem claim_C2_write_through_invalidation (c : NearCache κ ν)
    (op : MutOp κ) :
    (MapFeatNearCache.runMut c op).2
      = op.keys.map MapEvent.localInvalidate ++ [MapEvent.remoteInvoke op.req]
    ∧ ∀ k ∈ op.keys,
        NearCache.lookup (MapFeatNearCache.runMut c op).1 k = none := by
  cases op with
  | loadGivenKeys ks =>
      refine ⟨rfl, fun k hk => ?_⟩
      simpa [MapFeatNearCache.runMut,
        MapFeatNearCache.invalidateCacheBatch, Map.mutInternal] using
        lookup_foldl_invalidate_mem ks c k hk
  | put k => exact ⟨rfl, fun k' hk' => by
      simp only [MutOp.keys, List.mem_singleton] at hk'
      subst hk'
      simpa [MapFeatNearCache.runMut, MapFeatNearCache.singleKeyMut,
        MapFeatNearCache.invalidateCache, Map.mutInternal] using
        NearCache.lookup_invalidate_self c k'⟩
  | putIfAbsent k => exact ⟨rfl, fun k' hk' => by
      simp only [MutOp.keys, List.mem_singleton] at hk'
      subst hk'
      simpa [MapFeatNearCache.runMut, MapFeatNearCache.singleKeyMut,
        MapFeatNearCache.invalidateCache, Map.mutInternal] using
        NearCache.lookup_invalidate_self c k'⟩
  | putTransient k => exact ⟨rfl, fun k' hk' => by
      simp only [MutOp.keys, List.mem_singleton] at hk'
      subst hk'
      simpa [MapFeatNearCache.runMut, MapFeatNearCache.singleKeyMut,
        MapFeatNearCache.invalidateCache, Map.mutInternal] using
        NearCache.lookup_invalidate_self c k'⟩
  | set k => exact ⟨rfl, fun k' hk' => by
      simp only [MutOp.keys, List.mem_singleton] at hk'
      subst hk'
      simpa [MapFeatNearCache.runMut, MapFeatNearCache.singleKeyMut,
        MapFeatNearCache.invalidateCache, Map.mutInternal] using
        NearCache.lookup_invalidate_self c k'⟩
  | setTtl k => exact ⟨rfl, fun k' hk' => by
      simp only [MutOp.keys, List.mem_singleton] at hk'
      subst hk'
      simpa [MapFeatNearCache.runMut, MapFeatNearCache.singleKeyMut,
        MapFeatNearCache.invalidateCache, Map.mutInternal] using
        NearCache.lookup_invalidate_self c k'⟩
  | remove k => exact ⟨rfl, fun k' hk' => by
      simp only [MutOp.keys, List.mem_singleton] at hk'
      subst hk'
      simpa [MapFeatNearCache.runMut, MapFeatNearCache.singleKeyMut,
        MapFeatNearCache.invalidateCache, Map.mutInternal] using
        NearCache.lookup_invalidate_self c k'⟩
  | removeIfSame k => exact ⟨rfl, fun k' hk' => by
      simp only [MutOp.keys, List.mem_singleton] at hk'
      subst hk'
      simpa [MapFeatNearCache.runMut, MapFeatNearCache.singleKeyMut,
        MapFeatNearCache.invalidateCache, Map.mutInternal] using
        NearCache.lookup_invalidate_self c k'⟩
  | delete k => exact ⟨rfl, fun k' hk' => by
      simp only [MutOp.keys, List.mem_singleton] at hk'
      subst hk'
      simpa [MapFeatNearCache.runMut, MapFeatNearCache.singleKeyMut,
        MapFeatNearCache.invalidateCache, Map.mutInternal] using
        NearCache.lookup_invalidate_self c k'⟩
  | replace k => exact ⟨rfl, fun k' hk' => by
      simp only [MutOp.keys, List.mem_singleton] at hk'
      subst hk'
      simpa [MapFeatNearCache.runMut, MapFeatNearCache.singleKeyMut,
        MapFeatNearCache.invalidateCache, Map.mutInternal] using
        NearCache.lookup_invalidate_self c k'⟩
  | replaceIfSame k => exact ⟨rfl, fun k' hk' => by
      simp only [MutOp.keys, List.mem_singleton] at hk'
      subst hk'
      simpa [MapFeatNearCache.runMut, MapFeatNearCache.singleKeyMut,
        MapFeatNearCache.invalidateCache, Map.mutInternal] using
        NearCache.lookup_invalidate_self c k'⟩
  | evict k => exact ⟨rfl, fun k' hk' => by
      simp only [MutOp.keys, List.mem_singleton] at hk'
      subst hk'
      simpa [MapFeatNearCache.runMut, MapFeatNearCache.singleKeyMut,
        MapFeatNearCache.invalidateCache, Map.mutInternal] using
        NearCache.lookup_invalidate_self c k'⟩
  | tryPut k => exact ⟨rfl, fun k' hk' => by
      simp only [MutOp.keys, List.mem_singleton] at hk'
      subst hk'
      simpa [MapFeatNearCache.runMut, MapFeatNearCache.singleKeyMut,
        MapFeatNearCache.invalidateCache, Map.mutInternal] using
        NearCache.lookup_invalidate_self c k'⟩
  | tryRemove k => exact ⟨rfl, fun k' hk' => by
      simp only [MutOp.keys, List.mem_singleton] at hk'
      subst hk'
      simpa [MapFeatNearCache.runMut, MapFeatNearCache.singleKeyMut,
        MapFeatNearCache.invalidateCache, Map.mutInternal] using
        NearCache.lookup_invalidate_self c k'⟩
  | executeOnKey k => exact ⟨rfl, fun k' hk' => by
      simp only [MutOp.keys, List.mem_singleton] at hk'
      subst hk'
      simpa [MapFeatNearCache.runMut, MapFeatNearCache.singleKeyMut,
        MapFeatNearCache.invalidateCache, Map.mutInternal] using
        NearCache.lookup_invalidate_self c k'⟩

/-- Witness for C2 at a concrete cache and `put`. -/
theorem claim_C2_write_through_invalidation_witness :
    (MapFeatNearCache.runMut ([(1, 10)] : NearCache Nat Nat)
      (MutOp.put 1)).2
      = [MapEvent.localInvalidate 1, MapEvent.remoteInvoke (Req.put 1)]
    ∧ NearCache.lookup
        (MapFeatNearCache.runMut ([(1, 10)] : NearCache Nat Nat)
          (MutOp.put 1)).1 1 = none :=
  ⟨(claim_C2_write_through_invalidation [(1, 10)] (MutOp.put 1)).1,
   (claim_C2_write_through_invalidation [(1, 10)] (MutOp.put 1)).2 1
     (by decide)⟩

end ClaimC2

section ClaimC4

variable {κ ν : Type} [DecidableEq κ]

/-- **C4.** A single-entry invalidation with a null key clears the whole
cache; with a non-null key it invalidates exactly that key — that key is
gone afterwards (whether or not it was cached) and every other key's entry
is untouched; a batch invalidates every key named in it. -/
theorem claim_C4_invalidation_handlers :
    (∀ (c : NearCache κ ν) (u p s : Nat),
      MapFeatNearCache.handleInvalidation c none u p s = [])
    ∧ (∀ (c : NearCache κ ν) (k : κ) (u p s : Nat),
        NearCache.lookup
          (MapFeatNearCache.handleInvalidation c (some k) u p s) k = none)
    ∧ (∀ (c : NearCache κ ν) (k k' : κ) (u p s : Nat), k' ≠ k →
        NearCache.lookup
          (MapFeatNearCache.handleInvalidation c (some k) u p s) k'
          = NearCache.lookup c k')
    ∧ (∀ (c : NearCache κ ν) (keys : List κ) (su pu seqs : List Nat)
        (k : κ), k ∈ keys →
        NearCache.lookup
          (MapFeatNearCache.handleBatchInvalidation c keys su pu seqs) k
          = none) := by
  refine ⟨fun c u p s => rfl, fun c k u p s => ?_, fun c k k' u p s h => ?_,
    fun c keys su pu seqs k hk => ?_⟩
  · simpa [MapFeatNearCache.handleInvalidation] using
      NearCache.lookup_invalidate_self c k
  · simpa [MapFeatNearCache.handleInvalidation] using
      NearCache.lookup_invalidate_other c k k' h
  · simpa [MapFeatNearCache.handleBatchInvalidation] using
      lookup_foldl_invalidate_mem keys c k hk

/-- Witness for C4: a cache that never held key `2` still answers `none`
for it after its invalidation, key `9` is untouched, and a batch removes
key `1`. -/
theorem claim_C4_invalidation_handlers_witness :
    NearCache.lookup
      (MapFeatNearCache.handleInvalidation ([(9, 90)] : NearCache Nat Nat)
        (some 2) 0 0 0) 2 = none
    ∧ NearCache.lookup
        (MapFeatNearCache.handleInvalidation ([(9, 90)] : NearCache Nat Nat)
          (some 2) 0 0 0) 9 = NearCache.lookup ([(9, 90)] : NearCache Nat Nat) 9
    ∧ NearCache.lookup
        (MapFeatNearCache.handleBatchInvalidation
          ([(1, 10), (9, 90)] : NearCache Nat Nat) [1, 2] [] [] []) 1
        = none :=
  ⟨(claim_C4_invalidation_handlers (κ := Nat) (ν := Nat)).2.1 [(9, 90)] 2 0 0 0,
   (claim_C4_invalidation_handlers (κ := Nat) (ν := Nat)).2.2.1 [(9, 90)] 2 9
     0 0 0 (by decide),
   (claim_C4_invalidation_handlers (κ := Nat) (ν := Nat)).2.2.2
     [(1, 10), (9, 90)] [1, 2] [] [] [] 1 (by decide)⟩

end ClaimC4

section ClaimC5

variable {κ ν : Type} [DecidableEq κ]

/-- **C5.** `_get_internal` on a near-cache map: a cached key answers the
cached value immediately, with no events — in particular no remote
invocation — and an unchanged cache; an uncached key issues exactly the real
`map_get` invocation, stores the decoded remote value under the serialized
key, and returns that value. -/
theorem claim_C5_get_through_cache :
    (∀ (c : NearCache κ ν) (k : κ) (v remoteVal : ν),
      NearCache.lookup c k = some v →
      MapFeatNearCache.getInternal c k remoteVal = (v, c, []))
    ∧ (∀ (c : NearCache κ ν) (k : κ) (remoteVal : ν),
        NearCache.lookup c k = none →
        MapFeatNearCache.getInternal c k remoteVal
          = (remoteVal, NearCache.insert c k remoteVal,
              [MapEvent.remoteInvoke (Req.get k)])
        ∧ NearCache.lookup
            (MapFeatNearCache.getInternal c k remoteVal).2.1 k
            = some remoteVal) := by
  constructor
  · intro c k v remoteVal h
    simp [MapFeatNearCache.getInternal, h]
  · intro c k remoteVal h
    refine ⟨by simp [MapFeatNearCache.getInternal, Map.getInternal, h], ?_⟩
    simp [MapFeatNearCache.getInternal, Map.getInternal, h,
      NearCache.lookup_insert_self]

/-- Witness for C5: a hit on key `1` and a miss on key `2` on the cache
`[(1, 10)]`. -/
theorem claim_C5_get_through_cache_witness :
    MapFeatNearCache.getInternal ([(1, 10)] : NearCache Nat Nat) 1 99
      = (10, [(1, 10)], [])
    ∧ MapFeatNearCache.getInternal ([(1, 10)] : NearCache Nat Nat) 2 99
        = (99, NearCache.insert [(1, 10)] 2 99,
            [MapEvent.remoteInvoke (Req.get 2)]) :=
  ⟨(claim_C5_get_through_cache (κ := Nat) (ν := Nat)).1 [(1, 10)] 1 10 99
     (by decide),
   ((claim_C5_get_through_cache (κ := Nat) (ν := Nat)).2 [(1, 10)] 2 99
     (by decide)).1⟩

end ClaimC5

section ClaimC6

variable {κ ν : Type} [DecidableEq κ]

/-- **C6, counterexample.** `load_all(keys=None, replace_existing_values=
False)` is a map-wide load-all — the remote request issued is the map-wide
`map_load_all` — yet the local near cache is left untouched: no local clear
is emitted and the cached entry survives. -/
theorem claim_C6_counterexample :
    MapFeatNearCache.loadAllOp ([(1, 10)] : NearCache Nat Nat) none false
      = ([(1, 10)], [MapEvent.remoteInvoke (Req.loadAll false)])
    ∧ NearCache.lookup
        (MapFeatNearCache.loadAllOp ([(1, 10)] : NearCache Nat Nat)
          none false).1 1 = some 10 := by
  refine ⟨by decide, by decide⟩

/-- **C6, amended.** `clear` and `evict_all` always clear the entire local
near cache eagerly, before the remote call is issued; `load_all` does so
exactly when called with no key list and `replace_existing_values=True` —
with `replace_existing_values=False` the map-wide load-all leaves the cache
untouched. -/
theorem claim_C6_eager_clear (c : NearCache κ ν) :
    MapFeatNearCache.clearOp c
      = ([], [MapEvent.localClear, MapEvent.remoteInvoke Req.mapClear])
    ∧ MapFeatNearCache.evictAllOp c
        = ([], [MapEvent.localClear, MapEvent.remoteInvoke Req.evictAll])
    ∧ MapFeatNearCache.loadAllOp c none true
        = ([], [MapEvent.localClear,
            MapEvent.remoteInvoke (Req.loadAll true)])
    ∧ MapFeatNearCache.loadAllOp c none false
        = (c, [MapEvent.remoteInvoke (Req.loadAll false)]) := by
  exact ⟨rfl, rfl, rfl, rfl⟩

end ClaimC6

section ClaimC8

/-- **C8.** Every operation of the map-facing surface on the blocking map is
exactly the wrapped asynchronous map's operation, with the same arguments,
waited upon (`wrapped.op(args).result()`): the facade dispatch coincides
with the uniform blocking-adapter specification on every operation. -/
theorem claim_C8_blocking_facade {K V R : Type}
    (wrapped : MapApiOp K V → Future R) (op : MapApiOp K V) :
    BlockingMap.call wrapped op = blockingFacadeSpec wrapped op := by
  cases op <;> rfl

end ClaimC8

section ClaimC9

/-- **C9.** Calling a public key/value-taking `Map` method with `None` for
its key or a required value argument fails the `check_not_none` prologue
with an `AssertionError`, before any serialization, request building or
invocation step happens (the error carries no recorded call step). -/
theorem claim_C9_null_checks {K V : Type} (op : PublicOp K V)
    (h : (op.nullKey || op.nullValue) = true) :
    runPublic op = .error .assertionError := by
  cases op with
  | get key => cases key with
      | none => rfl
      | some _ => simp [PublicOp.nullKey, PublicOp.nullValue] at h
  | put key value ttl maxIdle => cases key with
      | none => rfl
      | some _ => cases value with
          | none => rfl
          | some _ => simp [PublicOp.nullKey, PublicOp.nullValue] at h
  | set key value ttl maxIdle => cases key with
      | none => rfl
      | some _ => cases value with
          | none => rfl
          | some _ => simp [PublicOp.nullKey, PublicOp.nullValue] at h
  | remove key => cases key with
      | none => rfl
      | some _ => simp [PublicOp.nullKey, PublicOp.nullValue] at h
  | delete key => cases key with
      | none => rfl
      | some _ => simp [PublicOp.nullKey, PublicOp.nullValue] at h
  | replace key value => cases key with
      | none => rfl
      | some _ => cases value with
          | none => rfl
          | some _ => simp [PublicOp.nullKey, PublicOp.nullValue] at h
  | replaceIfSame key oldValue newValue => cases key with
      | none => rfl
      | some _ => cases oldValue with
          | none => rfl
          | some _ => cases newValue with
              | none => rfl
              | some _ => simp [PublicOp.nullKey, PublicOp.nullValue] at h
  | removeIfSame key value => cases key with
      | none => rfl
      | some _ => cases value with
          | none => rfl
          | some _ => simp [PublicOp.nullKey, PublicOp.nullValue] at h
  | evict key => cases key with
      | none => rfl
      | some _ => simp [PublicOp.nullKey, PublicOp.nullValue] at h
  | containsKey key => cases key with
      | none => rfl
      | some _ => simp [PublicOp.nullKey, PublicOp.nullValue] at h
  | containsValue value => cases value with
      | none => rfl
      | some _ => simp [PublicOp.nullKey, PublicOp.nullValue] at h
  | lock key leaseTime => cases key with
      | none => rfl
      | some _ => simp [PublicOp.nullKey, PublicOp.nullValue] at h
  | tryLock key leaseTime timeout => cases key with
      | none => rfl
      | some _ => simp [PublicOp.nullKey, PublicOp.nullValue] at h
  | unlock key => cases key with
      | none => rfl
      | some _ => simp [PublicOp.nullKey, PublicOp.nullValue] at h
  | forceUnlock key => cases key with
      | none => rfl
      | some _ => simp [PublicOp.nullKey, PublicOp.nullValue] at h
  | tryPut key value timeout => cases key with
      | none => rfl
      | some _ => cases value with
          | none => rfl
          | some _ => simp [PublicOp.nullKey, PublicOp.nullValue] at h
  | tryRemove key timeout => cases key with
      | none => rfl
      | some _ => simp [PublicOp.nullKey, PublicOp.nullValue] at h
  | putIfAbsent key value ttl maxIdle => cases key with
      | none => rfl
      | some _ => cases value with
          | none => rfl
          | some _ => simp [PublicOp.nullKey, PublicOp.nullValue] at h
  | putTransient key value ttl maxIdle => cases key with
      | none => rfl
      | some _ => cases value with
          | none => rfl
          | some _ => simp [PublicOp.nullKey, PublicOp.nullValue] at h
  | setTtl key ttl => cases key with
      | none => rfl
      | some _ => simp [PublicOp.nullKey, PublicOp.nullValue] at h
  | executeOnKey key entryProcessor => cases key with
      | none => rfl
      | some _ => simp [PublicOp.nullKey, PublicOp.nullValue] at h
  | getEntryView key => cases key with
      | none => rfl
      | some _ => simp [PublicOp.nullKey, PublicOp.nullValue] at h
  | isLocked key => cases key with
      | none => rfl
      | some _ => simp [PublicOp.nullKey, PublicOp.nullValue] at h

/-- Witness for C9: `get(None)` and `put(k, None)` both abort with the
assertion error. -/
theorem claim_C9_null_checks_witness :
    runPublic (PublicOp.get (none : Option Nat) : PublicOp Nat Nat)
      = .error .assertionError
    ∧ runPublic (PublicOp.put (some 1) (none : Option Nat) none none
        : PublicOp Nat Nat) = .error .assertionError :=
  ⟨claim_C9_null_checks (PublicOp.get none) (by decide),
   claim_C9_null_checks (PublicOp.put (some 1) none none none) (by decide)⟩

end ClaimC9

section ClaimC10

/-- **C10.** For an address string the parser resolves to host `h` and port
`p`: with an explicit port (`p ≠ -1`) the possible addresses are exactly one
primary `(h, p)` and no secondaries; without a port the primary is
`(h, 5701)` and the secondaries are `(h, 5702)` and `(h, 5703)`. -/
theorem claim_C10_possible_addresses (s : List Char) (a : PyAddress)
    (h : addressFromStr s = some a) :
    (a.port ≠ -1 →
      getPossibleAddresses s = some ([⟨a.host, a.port⟩], []))
    ∧ (a.port = -1 →
      getPossibleAddresses s
        = some ([⟨a.host, 5701⟩], [⟨a.host, 5702⟩, ⟨a.host, 5703⟩])) := by
  constructor
  · intro hp
    simp [getPossibleAddresses, h, hp, List.range_succ]
  · intro hp
    simp [getPossibleAddresses, h, hp, List.range_succ]

/-- Witness for C10: `"10.0.0.1:8080"` yields one primary at port 8080;
`"127.0.0.1"` yields 5701 and secondaries 5702, 5703. -/
theorem claim_C10_possible_addresses_witness :
    getPossibleAddresses ("10.0.0.1:8080".toList)
      = some ([⟨"10.0.0.1".toList, 8080⟩], [])
    ∧ getPossibleAddresses ("127.0.0.1".toList)
        = some ([⟨"127.0.0.1".toList, 5701⟩],
            [⟨"127.0.0.1".toList, 5702⟩, ⟨"127.0.0.1".toList, 5703⟩]) :=
  ⟨(claim_C10_possible_addresses ("10.0.0.1:8080".toList)
      ⟨"10.0.0.1".toList, 8080⟩ (by decide)).1 (by decide),
   (claim_C10_possible_addresses ("127.0.0.1".toList)
      ⟨"127.0.0.1".toList, -1⟩ (by decide)).2 (by decide)⟩

end ClaimC10

section ClaimC7

theorem fastForwardAux_encode (t : FrameForest) :
    ∀ (rest : List Frame) (n : Nat), t.ok = true → 1 ≤ n →
      fastForwardAux (t.encode ++ rest) n = fastForwardAux rest n := by
  induction t with
  | nil => intro rest n _ _; rfl
  | leafCons f r ih =>
      intro rest n hok hn
      simp only [FrameForest.ok, Bool.and_eq_true, Bool.not_eq_true'] at hok
      obtain ⟨⟨hb, he⟩, hr⟩ := hok
      simp only [FrameForest.encode, List.cons_append, fastForwardAux, he,
        hb, Bool.false_eq_true, if_false]
      exact ih rest n hr hn
  | nodeCons i r ihi ihr =>
      intro rest n hok hn
      simp only [FrameForest.ok, Bool.and_eq_true] at hok
      obtain ⟨hi, hr⟩ := hok
      have hBend : BEGIN_FRAME.isEndFrame = false := by decide
      have hBbeg : BEGIN_FRAME.isBeginFrame = true := by decide
      have hEend : END_FRAME.isEndFrame = true := by decide
      have hassoc :
          FrameForest.encode (.nodeCons i r) ++ rest
            = BEGIN_FRAME :: (i.encode ++ (END_FRAME :: (r.encode ++ rest)))
        := by
        simp [FrameForest.encode, List.append_assoc]
      rw [hassoc]
      simp only [fastForwardAux, hBend, Bool.false_eq_true, if_false, hBbeg,
        if_true]
      rw [ihi (END_FRAME :: (r.encode ++ rest)) (n + 1) hi (by omega)]
      simp only [fastForwardAux, hEend, if_true]
      have hne : ¬(n + 1 = 1) := by omega
      simp only [hne, if_false, Nat.add_sub_cancel]
      exact ihr rest n hr hn

/-- **C7.** With the cursor standing on the begin frame of a
begin/end-bracketed structure whose body is an arbitrary run of plain
frames and nested structures (arbitrary depth, possibly empty), consuming
that frame and fast-forwarding lands the cursor exactly on the next sibling
frame, for any frames following the structure. -/
theorem claim_C7_fast_forward (body : FrameForest) (rest : List Frame)
    (hok : body.ok = true) :
    skipStructure (FrameForest.encode (.nodeCons body .nil) ++ rest)
      = some rest := by
  have hassoc :
      FrameForest.encode (.nodeCons body .nil) ++ rest
        = BEGIN_FRAME :: (body.encode ++ (END_FRAME :: rest)) := by
    simp [FrameForest.encode, List.append_assoc]
  rw [hassoc]
  simp only [skipStructure, nextFrame, Option.bind_some]
  show fastForwardToEndFrame (body.encode ++ (END_FRAME :: rest)) = some rest
  unfold fastForwardToEndFrame
  rw [fastForwardAux_encode body (END_FRAME :: rest) 1 hok (by omega)]
  have hEend : END_FRAME.isEndFrame = true := by decide
  simp [fastForwardAux, hEend]

/-- Witness for C7 at the unit test's message shape: a structure holding
one nested structure holding one plain frame, with nothing after it. -/
theorem claim_C7_fast_forward_witness :
    skipStructure (FrameForest.encode
      (.nodeCons (.nodeCons (.leafCons ⟨[], 0⟩ .nil) .nil) .nil) ++ [])
      = some [] :=
  claim_C7_fast_forward (.nodeCons (.leafCons ⟨[], 0⟩ .nil) .nil) []
    (by decide)

end ClaimC7

section CodecLemmas

theorem natToLEBytes_length (w n : Nat) : (natToLEBytes w n).length = w := by
  induction w generalizing n with
  | zero => rfl
  | succ w ih => simp [natToLEBytes, ih]

theorem leBytesToNat_natToLEBytes (w n : Nat) (h : n < 256 ^ w) :
    leBytesToNat (natToLEBytes w n) = n := by
  induction w generalizing n with
  | zero =>
      have : n = 0 := by simpa using h
      simp [this, natToLEBytes, leBytesToNat]
  | succ w ih =>
      have hdiv : n / 256 < 256 ^ w := by
        rw [Nat.div_lt_iff_lt_mul (by norm_num)]
        calc n < 256 ^ (w + 1) := h
          _ = 256 ^ w * 256 := pow_succ 256 w
      show leBytesToNat (n % 256 :: natToLEBytes w (n / 256)) = n
      simp only [leBytesToNat, List.foldr_cons] at *
      rw [ih _ hdiv]
      omega

theorem readBytesAt_writeBytesAt (buf : List Nat) (off d w : Nat)
    (bytes : List Nat) (h1 : off + bytes.length ≤ buf.length)
    (h2 : d + w ≤ bytes.length) :
    readBytesAt (writeBytesAt buf off bytes) (off + d) w
      = (bytes.drop d).take w := by
  unfold readBytesAt writeBytesAt
  have hA : (buf.take off).length = off := by
    rw [List.length_take]; omega
  rw [List.append_assoc, List.drop_append_eq_append_drop]
  have hAnil : (buf.take off).drop (off + d) = [] := by
    apply List.drop_eq_nil_of_le
    omega
  rw [hAnil, hA, List.nil_append]
  have hd : off + d - off = d := by omega
  rw [hd, List.drop_append_eq_append_drop]
  have hdsub : d - bytes.length = 0 := by omega
  rw [hdsub, List.drop_zero, List.take_append_eq_append_take]
  have hw : w - (bytes.drop d).length = 0 := by
    rw [List.length_drop]; omega
  rw [hw, List.take_zero, List.append_nil]

theorem readBytesAt_writeBytesAt_zero (buf : List Nat) (off : Nat)
    (bytes : List Nat) (h1 : off + bytes.length ≤ buf.length) :
    readBytesAt (writeBytesAt buf off bytes) off bytes.length = bytes := by
  have := readBytesAt_writeBytesAt buf off 0 bytes.length bytes h1 (by omega)
  simpa using this

theorem decodeSigned_encodeSigned (w : Nat) (hw : 1 ≤ w) (buf : List Nat)
    (off : Nat) (v : Int) (hbuf : off + w ≤ buf.length)
    (hlo : -(2 ^ (8 * w - 1)) ≤ v) (hhi : v < 2 ^ (8 * w - 1)) :
    FixSizedTypesCodec.decodeSigned w
      (FixSizedTypesCodec.encodeSigned w buf off v) off = v := by
  have hNe : (8 * w - 1) + 1 = 8 * w := by omega
  have hN : (2 : Int) ^ (8 * w) = 2 * 2 ^ (8 * w - 1) := by
    conv_lhs => rw [← hNe]
    rw [pow_succ]; ring
  set M : Int := 2 ^ (8 * w - 1) with hM
  have hMpos : 0 < M := by positivity
  have hNpos : (0 : Int) < 2 ^ (8 * w) := by positivity
  have hmod0 : 0 ≤ v % 2 ^ (8 * w) := Int.emod_nonneg v (by positivity)
  have hmodlt : v % 2 ^ (8 * w) < 2 ^ (8 * w) := Int.emod_lt_of_pos v hNpos
  have hmodEq : v % 2 ^ (8 * w) = if 0 ≤ v then v else v + 2 ^ (8 * w) := by
    split
    · exact Int.emod_eq_of_lt ‹0 ≤ v› (by rw [hN]; omega)
    · have h0 : 0 ≤ v + 2 ^ (8 * w) := by rw [hN]; omega
      have hlt : v + 2 ^ (8 * w) < 2 ^ (8 * w) := by omega
      have hshift := Int.add_mul_emod_self_left (a := v)
        (b := 2 ^ (8 * w)) (c := 1)
      rw [mul_one] at hshift
      rw [← hshift]
      exact Int.emod_eq_of_lt h0 hlt
  set nn : Nat := (v % 2 ^ (8 * w)).toNat with hnn
  have hcast : (nn : Int) = v % 2 ^ (8 * w) := Int.toNat_of_nonneg hmod0
  have hnnlt : nn < 256 ^ w := by
    have h256 : (256 : Nat) ^ w = 2 ^ (8 * w) := by
      rw [show (256 : Nat) = 2 ^ 8 by norm_num, ← pow_mul]
    rw [h256]
    have hc : ((2 ^ (8 * w) : Nat) : Int) = 2 ^ (8 * w) := by push_cast; rfl
    omega
  unfold FixSizedTypesCodec.decodeSigned FixSizedTypesCodec.encodeSigned
  have hblen : (natToLEBytes w nn).length = w := natToLEBytes_length w nn
  have hread :
      readBytesAt (writeBytesAt buf off (natToLEBytes w nn)) off w
        = natToLEBytes w nn := by
    have := readBytesAt_writeBytesAt_zero buf off (natToLEBytes w nn)
      (by rw [hblen]; exact hbuf)
    rwa [hblen] at this
  rw [hread, leBytesToNat_natToLEBytes w nn hnnlt]
  have hMcast : ((2 ^ (8 * w - 1) : Nat) : Int) = M := by push_cast; rfl
  by_cases hv : 0 ≤ v
  · have hval : (nn : Int) = v := by rw [hcast, hmodEq, if_pos hv]
    have hlt : nn < 2 ^ (8 * w - 1) := by omega
    rw [if_pos hlt]
    exact hval
  · have hval : (nn : Int) = v + 2 ^ (8 * w) := by
      rw [hcast, hmodEq, if_neg hv]
    have hge : ¬(nn < 2 ^ (8 * w - 1)) := by
      rw [hN] at hval
      omega
    rw [if_neg hge]
    omega

end CodecLemmas

section Utf8Lemmas

theorem utf8Decode_encodeChar_append (c : Nat) (hc : c < 0x110000)
    (rest : List Nat) :
    utf8Decode (utf8EncodeChar c ++ rest) = (utf8Decode rest).map (c :: ·) := by
  by_cases h1 : c < 0x80
  · have hEnc : utf8EncodeChar c = [c] := by simp [utf8EncodeChar, h1]
    rw [hEnc, List.singleton_append, utf8Decode.eq_def]
    simp only [h1, if_true]
  · by_cases h2 : c < 0x800
    · have hEnc : utf8EncodeChar c = [0xC0 + c / 64, 0x80 + c % 64] := by
        simp [utf8EncodeChar, h1, h2]
      have e1 : ¬(0xC0 + c / 64 < 0x80) := by omega
      have e2 : ¬(0xC0 + c / 64 < 0xC0) := by omega
      have e3 : 0xC0 + c / 64 < 0xE0 := by omega
      have e4 : isCont (0x80 + c % 64) = true := by
        simp only [isCont, Bool.and_eq_true, decide_eq_true_eq]
        omega
      have eval : (0xC0 + c / 64 - 0xC0) * 64 + (0x80 + c % 64 - 0x80)
          = c := by omega
      rw [hEnc, List.cons_append, List.cons_append, List.nil_append,
        utf8Decode.eq_def]
      simp only [e1, e2, e3, e4, eval, if_true, if_false, utf8DecodeTail2]
    · by_cases h3 : c < 0x10000
      · have hEnc : utf8EncodeChar c
            = [0xE0 + c / 4096, 0x80 + c / 64 % 64, 0x80 + c % 64] := by
          simp [utf8EncodeChar, h1, h2, h3]
        have e1 : ¬(0xE0 + c / 4096 < 0x80) := by omega
        have e2 : ¬(0xE0 + c / 4096 < 0xC0) := by omega
        have e3 : ¬(0xE0 + c / 4096 < 0xE0) := by omega
        have e4 : 0xE0 + c / 4096 < 0xF0 := by omega
        have e5 : isCont (0x80 + c / 64 % 64) = true := by
          simp only [isCont, Bool.and_eq_true, decide_eq_true_eq]
          omega
        have e6 : isCont (0x80 + c % 64) = true := by
          simp only [isCont, Bool.and_eq_true, decide_eq_true_eq]
          omega
        have eval : (0xE0 + c / 4096 - 0xE0) * 4096
            + (0x80 + c / 64 % 64 - 0x80) * 64 + (0x80 + c % 64 - 0x80)
            = c := by omega
        rw [hEnc, List.cons_append, List.cons_append, List.cons_append,
          List.nil_append, utf8Decode.eq_def]
        simp only [e1, e2, e3, e4, e5, e6, eval, Bool.and_self, if_true,
          if_false, utf8DecodeTail3]
      · have hEnc : utf8EncodeChar c
            = [0xF0 + c / 262144, 0x80 + c / 4096 % 64, 0x80 + c / 64 % 64,
                0x80 + c % 64] := by
          simp [utf8EncodeChar, h1, h2, h3]
        have e1 : ¬(0xF0 + c / 262144 < 0x80) := by omega
        have e2 : ¬(0xF0 + c / 262144 < 0xC0) := by omega
        have e3 : ¬(0xF0 + c / 262144 < 0xE0) := by omega
        have e4 : ¬(0xF0 + c / 262144 < 0xF0) := by omega
        have e5 : 0xF0 + c / 262144 < 0xF8 := by omega
        have e6 : isCont (0x80 + c / 4096 % 64) = true := by
          simp only [isCont, Bool.and_eq_true, decide_eq_true_eq]
          omega
        have e7 : isCont (0x80 + c / 64 % 64) = true := by
          simp only [isCont, Bool.and_eq_true, decide_eq_true_eq]
          omega
        have e8 : isCont (0x80 + c % 64) = true := by
          simp only [isCont, Bool.and_eq_true, decide_eq_true_eq]
          omega
        have eval : (0xF0 + c / 262144 - 0xF0) * 262144
            + (0x80 + c / 4096 % 64 - 0x80) * 4096
            + (0x80 + c / 64 % 64 - 0x80) * 64 + (0x80 + c % 64 - 0x80)
            = c := by omega
        rw [hEnc, List.cons_append, List.cons_append, List.cons_append,
          List.cons_append, List.nil_append, utf8Decode.eq_def]
        simp only [e1, e2, e3, e4, e5, e6, e7, e8, eval, Bool.and_self,
          if_true, if_false, utf8DecodeTail4]

theorem utf8Decode_utf8Encode_append (s : List Nat)
    (h : ∀ c ∈ s, c < 0x110000) (tail : List Nat) :
    utf8Decode (utf8Encode s ++ tail) = (utf8Decode tail).map (s ++ ·) := by
  induction s with
  | nil =>
      cases hd : utf8Decode tail <;> simp [utf8Encode, hd]
  | cons c cs ih =>
      have hc : c < 0x110000 := h c (List.mem_cons_self _ _)
      have hcs : ∀ x ∈ cs, x < 0x110000 :=
        fun x hx => h x (List.mem_cons_of_mem _ hx)
      have henc : utf8Encode (c :: cs) ++ tail
          = utf8EncodeChar c ++ (utf8Encode cs ++ tail) := by
        simp [utf8Encode, List.append_assoc]
      rw [henc, utf8Decode_encodeChar_append c hc, ih hcs]
      cases hd : utf8Decode tail <;> simp

theorem utf8Decode_utf8Encode (s : List Nat) (h : ∀ c ∈ s, c < 0x110000) :
    utf8Decode (utf8Encode s) = some s := by
  have hnil : utf8Decode [] = some [] := by simp [utf8Decode]
  have := utf8Decode_utf8Encode_append s h []
  simpa [hnil] using this

end Utf8Lemmas

section FrameCodecLemmas

theorem Frame.isEndFrame_zero_flags (c : List Nat) :
    Frame.isEndFrame ⟨c, 0⟩ = false := by
  simp [Frame.isEndFrame, Nat.zero_testBit]

theorem string_decode_encode (s : List Nat) (h : ∀ c ∈ s, c < 0x110000)
    (rest : List Frame) :
    StringCodec.decode (StringCodec.encode s ++ rest) = some (s, rest) := by
  simp [StringCodec.encode, StringCodec.decode, utf8Decode_utf8Encode s h]

theorem byteArray_decode_encode (b : List Nat) (rest : List Frame) :
    ByteArrayCodec.decode (ByteArrayCodec.encode b ++ rest)
      = some (b, rest) := rfl

theorem listMultiFrame_decodeAux_encode {α : Type}
    (dec : List Frame → Option (α × List Frame)) (enc : α → List Frame)
    (xs : List α)
    (hE : ∀ a ∈ xs, ∀ r, dec (enc a ++ r) = some (a, r))
    (hH : ∀ a ∈ xs, ∃ f t, enc a = f :: t ∧ f.isEndFrame = false) :
    ∀ (rest : List Frame) (fuel : Nat),
      ((xs.map enc).flatten ++ END_FRAME :: rest).length ≤ fuel →
      ListMultiFrameCodec.decodeAux dec fuel
        ((xs.map enc).flatten ++ END_FRAME :: rest) = some (xs, rest) := by
  induction xs with
  | nil =>
      intro rest fuel hfuel
      simp only [List.map_nil, List.flatten_nil, List.nil_append] at hfuel ⊢
      match fuel, hfuel with
      | fuel + 1, _ =>
        have hEnd : END_FRAME.isEndFrame = true := by decide
        simp [ListMultiFrameCodec.decodeAux, hEnd]
  | cons a xs ih =>
      intro rest fuel hfuel
      obtain ⟨f, t, henc, hend⟩ := hH a (List.mem_cons_self _ _)
      have hfr : ((a :: xs).map enc).flatten ++ END_FRAME :: rest
          = f :: (t ++ ((xs.map enc).flatten ++ END_FRAME :: rest)) := by
        simp [henc, List.append_assoc]
      rw [hfr] at hfuel ⊢
      match fuel, hfuel with
      | fuel + 1, hfuel =>
        have hdec : dec (f :: (t ++ ((xs.map enc).flatten
            ++ END_FRAME :: rest)))
            = some (a, (xs.map enc).flatten ++ END_FRAME :: rest) := by
          have := hE a (List.mem_cons_self _ _)
            ((xs.map enc).flatten ++ END_FRAME :: rest)
          rwa [henc, List.cons_append] at this
        have hrec : ListMultiFrameCodec.decodeAux dec fuel
            ((xs.map enc).flatten ++ END_FRAME :: rest) = some (xs, rest) := by
          apply ih
          · exact fun a' ha' r => hE a' (List.mem_cons_of_mem _ ha') r
          · exact fun a' ha' => hH a' (List.mem_cons_of_mem _ ha')
          · simp only [List.length_cons, List.length_append] at hfuel
            simp only [List.length_append, List.length_cons]
            omega
        simp [ListMultiFrameCodec.decodeAux, hend, hdec, hrec]

theorem listMultiFrame_decode_encode {α : Type}
    (dec : List Frame → Option (α × List Frame)) (enc : α → List Frame)
    (xs : List α)
    (hE : ∀ a ∈ xs, ∀ r, dec (enc a ++ r) = some (a, r))
    (hH : ∀ a ∈ xs, ∃ f t, enc a = f :: t ∧ f.isEndFrame = false)
    (rest : List Frame) :
    ListMultiFrameCodec.decode dec (ListMultiFrameCodec.encode enc xs ++ rest)
      = some (xs, rest) := by
  have hfr : ListMultiFrameCodec.encode enc xs ++ rest
      = BEGIN_FRAME :: ((xs.map enc).flatten ++ END_FRAME :: rest) := by
    simp [ListMultiFrameCodec.encode, List.append_assoc]
  rw [hfr]
  have hBeg : BEGIN_FRAME.isBeginFrame = true := by decide
  simp only [ListMultiFrameCodec.decode, hBeg, if_true]
  exact listMultiFrame_decodeAux_encode dec enc xs hE hH rest _ le_rfl

theorem entryList_decodeAux_encode {κ ν : Type}
    (decK : List Frame → Option (κ × List Frame)) (encK : κ → List Frame)
    (decV : List Frame → Option (ν × List Frame)) (encV : ν → List Frame)
    (entries : List (κ × ν))
    (hK : ∀ e ∈ entries, ∀ r, decK (encK e.1 ++ r) = some (e.1, r))
    (hKH : ∀ e ∈ entries, ∃ f t, encK e.1 = f :: t ∧ f.isEndFrame = false)
    (hV : ∀ e ∈ entries, ∀ r, decV (encV e.2 ++ r) = some (e.2, r)) :
    ∀ (rest : List Frame) (fuel : Nat),
      ((entries.map fun e => encK e.1 ++ encV e.2).flatten
        ++ END_FRAME :: rest).length ≤ fuel →
      EntryListCodec.decodeAux decK decV fuel
        ((entries.map fun e => encK e.1 ++ encV e.2).flatten
          ++ END_FRAME :: rest) = some (entries, rest) := by
  induction entries with
  | nil =>
      intro rest fuel hfuel
      simp only [List.map_nil, List.flatten_nil, List.nil_append] at hfuel ⊢
      match fuel, hfuel with
      | fuel + 1, _ =>
        have hEnd : END_FRAME.isEndFrame = true := by decide
        simp [EntryListCodec.decodeAux, hEnd]
  | cons e es ih =>
      intro rest fuel hfuel
      obtain ⟨f, t, henc, hend⟩ := hKH e (List.mem_cons_self _ _)
      have hfr : ((e :: es).map fun x => encK x.1 ++ encV x.2).flatten
          ++ END_FRAME :: rest
          = f :: (t ++ (encV e.2 ++ ((es.map fun x =>
              encK x.1 ++ encV x.2).flatten ++ END_FRAME :: rest))) := by
        simp [henc, List.append_assoc]
      rw [hfr] at hfuel ⊢
      match fuel, hfuel with
      | fuel + 1, hfuel =>
        have hdecK : decK (f :: (t ++ (encV e.2 ++ ((es.map fun x =>
            encK x.1 ++ encV x.2).flatten ++ END_FRAME :: rest))))
            = some (e.1, encV e.2 ++ ((es.map fun x =>
                encK x.1 ++ encV x.2).flatten ++ END_FRAME :: rest)) := by
          have := hK e (List.mem_cons_self _ _)
            (encV e.2 ++ ((es.map fun x =>
              encK x.1 ++ encV x.2).flatten ++ END_FRAME :: rest))
          rwa [henc, List.cons_append] at this
        have hdecV : decV (encV e.2 ++ ((es.map fun x =>
            encK x.1 ++ encV x.2).flatten ++ END_FRAME :: rest))
            = some (e.2, (es.map fun x =>
                encK x.1 ++ encV x.2).flatten ++ END_FRAME :: rest) :=
          hV e (List.mem_cons_self _ _) _
        have hrec : EntryListCodec.decodeAux decK decV fuel
            ((es.map fun x => encK x.1 ++ encV x.2).flatten
              ++ END_FRAME :: rest) = some (es, rest) := by
          apply ih
          · exact fun e' he' r => hK e' (List.mem_cons_of_mem _ he') r
          · exact fun e' he' => hKH e' (List.mem_cons_of_mem _ he')
          · exact fun e' he' r => hV e' (List.mem_cons_of_mem _ he') r
          · simp only [List.length_cons, List.length_append] at hfuel
            simp only [List.length_append, List.length_cons]
            omega
        simp [EntryListCodec.decodeAux, hend, hdecK, hdecV, hrec]

theorem entryList_decode_encode {κ ν : Type}
    (decK : List Frame → Option (κ × List Frame)) (encK : κ → List Frame)
    (decV : List Frame → Option (ν × List Frame)) (encV : ν → List Frame)
    (entries : List (κ × ν))
    (hK : ∀ e ∈ entries, ∀ r, decK (encK e.1 ++ r) = some (e.1, r))
    (hKH : ∀ e ∈ entries, ∃ f t, encK e.1 = f :: t ∧ f.isEndFrame = false)
    (hV : ∀ e ∈ entries, ∀ r, decV (encV e.2 ++ r) = some (e.2, r))
    (rest : List Frame) :
    EntryListCodec.decode decK decV
      (EntryListCodec.encode encK encV entries ++ rest)
      = some (entries, rest) := by
  have hfr : EntryListCodec.encode encK encV entries ++ rest
      = BEGIN_FRAME :: ((entries.map fun e => encK e.1 ++ encV e.2).flatten
          ++ END_FRAME :: rest) := by
    simp [EntryListCodec.encode, List.append_assoc]
  rw [hfr]
  have hBeg : BEGIN_FRAME.isBeginFrame = true := by decide
  simp only [EntryListCodec.decode, hBeg, if_true]
  exact entryList_decodeAux_encode decK encK decV encV entries
    hK hKH hV rest _ le_rfl

theorem CodecUtil.decodeNullable_null {α : Type}
    (dec : List Frame → Option (α × List Frame)) (rest : List Frame) :
    CodecUtil.decodeNullable dec (NULL_FRAME :: rest) = some (none, rest) := by
  have hNull : NULL_FRAME.isNullFrame = true := by decide
  simp [CodecUtil.decodeNullable, hNull]

theorem CodecUtil.decodeNullable_of_decode {α : Type}
    (dec : List Frame → Option (α × List Frame)) (v : α)
    (frames rest : List Frame) (f : Frame) (t : List Frame)
    (hfr : frames = f :: t) (hnotnull : f.isNullFrame = false)
    (hdec : dec frames = some (v, rest)) :
    CodecUtil.decodeNullable dec frames = some (some v, rest) := by
  subst hfr
  simp [CodecUtil.decodeNullable, hnotnull, hdec]

theorem listMultiFrame_decodeNullable_none {α : Type}
    (dec : List Frame → Option (α × List Frame)) (enc : α → List Frame)
    (rest : List Frame) :
    ListMultiFrameCodec.decodeNullable dec
      (ListMultiFrameCodec.encodeNullable enc none ++ rest)
      = some (none, rest) := by
  have hfr : ListMultiFrameCodec.encodeNullable enc none ++ rest
      = NULL_FRAME :: rest := by
    simp [ListMultiFrameCodec.encodeNullable, CodecUtil.encodeNullable]
  rw [hfr]
  exact CodecUtil.decodeNullable_null _ rest

theorem listMultiFrame_decodeNullable_some {α : Type}
    (dec : List Frame → Option (α × List Frame)) (enc : α → List Frame)
    (xs : List α)
    (hE : ∀ a ∈ xs, ∀ r, dec (enc a ++ r) = some (a, r))
    (hH : ∀ a ∈ xs, ∃ f t, enc a = f :: t ∧ f.isEndFrame = false)
    (rest : List Frame) :
    ListMultiFrameCodec.decodeNullable dec
      (ListMultiFrameCodec.encodeNullable enc (some xs) ++ rest)
      = some (some xs, rest) := by
  apply CodecUtil.decodeNullable_of_decode _ xs _ rest BEGIN_FRAME
    ((xs.map enc).flatten ++ END_FRAME :: rest)
  · simp [ListMultiFrameCodec.encodeNullable, CodecUtil.encodeNullable,
      ListMultiFrameCodec.encode, List.append_assoc]
  · decide
  · exact listMultiFrame_decode_encode dec enc xs hE hH rest

theorem entryList_decodeNullable_none {κ ν : Type}
    (decK : List Frame → Option (κ × List Frame)) (encK : κ → List Frame)
    (decV : List Frame → Option (ν × List Frame)) (encV : ν → List Frame)
    (rest : List Frame) :
    EntryListCodec.decodeNullable decK decV
      (EntryListCodec.encodeNullable encK encV none ++ rest)
      = some (none, rest) := by
  have hfr : EntryListCodec.encodeNullable encK encV none ++ rest
      = NULL_FRAME :: rest := by
    simp [EntryListCodec.encodeNullable, CodecUtil.encodeNullable]
  rw [hfr]
  exact CodecUtil.decodeNullable_null _ rest

theorem entryList_decodeNullable_some {κ ν : Type}
    (decK : List Frame → Option (κ × List Frame)) (encK : κ → List Frame)
    (decV : List Frame → Option (ν × List Frame)) (encV : ν → List Frame)
    (entries : List (κ × ν))
    (hK : ∀ e ∈ entries, ∀ r, decK (encK e.1 ++ r) = some (e.1, r))
    (hKH : ∀ e ∈ entries, ∃ f t, encK e.1 = f :: t ∧ f.isEndFrame = false)
    (hV : ∀ e ∈ entries, ∀ r, decV (encV e.2 ++ r) = some (e.2, r))
    (rest : List Frame) :
    EntryListCodec.decodeNullable decK decV
      (EntryListCodec.encodeNullable encK encV (some entries) ++ rest)
      = some (some entries, rest) := by
  apply CodecUtil.decodeNullable_of_decode _ entries _ rest BEGIN_FRAME
    ((entries.map fun e => encK e.1 ++ encV e.2).flatten
      ++ END_FRAME :: rest)
  · simp [EntryListCodec.encodeNullable, CodecUtil.encodeNullable,
      EntryListCodec.encode, List.append_assoc]
  · decide
  · exact entryList_decode_encode decK encK decV encV entries
      hK hKH hV rest

theorem FixSizedTypesCodec.decodeBoolean_encodeBoolean (buf : List Nat)
    (off : Nat) (b : Bool) (h : off + 1 ≤ buf.length) :
    FixSizedTypesCodec.decodeBoolean
      (FixSizedTypesCodec.encodeBoolean buf off b) off = b := by
  unfold FixSizedTypesCodec.decodeBoolean FixSizedTypesCodec.encodeBoolean
  have hread := readBytesAt_writeBytesAt_zero buf off
    [if b then 1 else 0] (by simpa using h)
  simp only [List.length_singleton] at hread
  rw [hread]
  cases b <;> simp

theorem FixSizedTypesCodec.decodeByte_encodeByte (buf : List Nat)
    (off v : Nat) (h : off + 1 ≤ buf.length) (hv : v < 256) :
    FixSizedTypesCodec.decodeByte
      (FixSizedTypesCodec.encodeByte buf off v) off = v := by
  unfold FixSizedTypesCodec.decodeByte FixSizedTypesCodec.encodeByte
  have hread := readBytesAt_writeBytesAt_zero buf off [v % 256]
    (by simpa using h)
  simp only [List.length_singleton] at hread
  rw [hread]
  simp [leBytesToNat, Nat.mod_eq_of_lt hv]

theorem FixSizedTypesCodec.decodeUuid_encodeUuid (buf : List Nat)
    (off : Nat) (u : Option Nat) (h : off + 17 ≤ buf.length)
    (hu : ∀ x, u = some x → x < 2 ^ 128) :
    FixSizedTypesCodec.decodeUuid
      (FixSizedTypesCodec.encodeUuid buf off u) off = u := by
  have h256 : (256 : Nat) ^ 16 = 2 ^ 128 := by
    rw [show (256 : Nat) = 2 ^ 8 by norm_num, ← pow_mul]
  cases u with
  | none =>
      unfold FixSizedTypesCodec.decodeUuid FixSizedTypesCodec.encodeUuid
      have hlen : (1 :: natToLEBytes 16 0).length = 17 := by
        simp [natToLEBytes_length]
      have hflag := readBytesAt_writeBytesAt buf off 0 1
        (1 :: natToLEBytes 16 0) (by rw [hlen]; exact h) (by rw [hlen]; try omega)
      simp only [Nat.add_zero, List.drop_zero] at hflag
      rw [hflag]
      simp [leBytesToNat]
  | some x =>
      unfold FixSizedTypesCodec.decodeUuid FixSizedTypesCodec.encodeUuid
      have hlen : (0 :: natToLEBytes 16 x).length = 17 := by
        simp [natToLEBytes_length]
      have hflag := readBytesAt_writeBytesAt buf off 0 1
        (0 :: natToLEBytes 16 x) (by rw [hlen]; exact h) (by rw [hlen]; try omega)
      simp only [Nat.add_zero, List.drop_zero] at hflag
      have hbody := readBytesAt_writeBytesAt buf off 1 16
        (0 :: natToLEBytes 16 x) (by rw [hlen]; exact h) (by rw [hlen]; try omega)
      rw [hflag]
      have htake : ((0 :: natToLEBytes 16 x).drop 1).take 16
          = natToLEBytes 16 x := by
        simp [List.take_of_length_le, natToLEBytes_length]
      rw [htake] at hbody
      have hx : x < 256 ^ 16 := by rw [h256]; exact hu x rfl
      have h0 : leBytesToNat [0] = 0 := by simp [leBytesToNat]
      simp [hflag, h0, hbody, leBytesToNat_natToLEBytes 16 x hx]

end FrameCodecLemmas

section ClaimC3

/-- **C3.** Decoding inverts encoding for every supported codec type:
the fixed-size scalars (boolean, byte, short, int, long) at any in-range
value and buffer offset; nullable UUIDs (both the null and any 128-bit
value); strings (any code-point sequence); byte arrays; multi-frame lists
and ordered entry lists, generically in any element codec that itself
round-trips, together with their nullable variants — where the null list is
encoded distinctly from the empty list; and, concretely, the entry list
`[("a","1"),("b","2"),("c","3")]` under the plain and nullable string
entry-list codecs decodes back to itself, while the nullable-null variant
decodes to no value. -/
theorem claim_C3_codec_roundtrip :
    (∀ (buf : List Nat) (off : Nat) (b : Bool), off + 1 ≤ buf.length →
      FixSizedTypesCodec.decodeBoolean
        (FixSizedTypesCodec.encodeBoolean buf off b) off = b)
    ∧ (∀ (buf : List Nat) (off v : Nat), off + 1 ≤ buf.length → v < 256 →
      FixSizedTypesCodec.decodeByte
        (FixSizedTypesCodec.encodeByte buf off v) off = v)
    ∧ (∀ (buf : List Nat) (off : Nat) (v : Int), off + 2 ≤ buf.length →
      -(2 ^ 15) ≤ v → v < 2 ^ 15 →
      FixSizedTypesCodec.decodeShort
        (FixSizedTypesCodec.encodeShort buf off v) off = v)
    ∧ (∀ (buf : List Nat) (off : Nat) (v : Int), off + 4 ≤ buf.length →
      -(2 ^ 31) ≤ v → v < 2 ^ 31 →
      FixSizedTypesCodec.decodeInt
        (FixSizedTypesCodec.encodeInt buf off v) off = v)
    ∧ (∀ (buf : List Nat) (off : Nat) (v : Int), off + 8 ≤ buf.length →
      -(2 ^ 63) ≤ v → v < 2 ^ 63 →
      FixSizedTypesCodec.decodeLong
        (FixSizedTypesCodec.encodeLong buf off v) off = v)
    ∧ (∀ (buf : List Nat) (off : Nat) (u : Option Nat),
      off + 17 ≤ buf.length → (∀ x, u = some x → x < 2 ^ 128) →
      FixSizedTypesCodec.decodeUuid
        (FixSizedTypesCodec.encodeUuid buf off u) off = u)
    ∧ (∀ (s : List Nat) (rest : List Frame), (∀ c ∈ s, c < 0x110000) →
      StringCodec.decode (StringCodec.encode s ++ rest) = some (s, rest))
    ∧ (∀ (b : List Nat) (rest : List Frame),
      ByteArrayCodec.decode (ByteArrayCodec.encode b ++ rest)
        = some (b, rest))
    ∧ (∀ (α : Type) (dec : List Frame → Option (α × List Frame))
        (enc : α → List Frame) (xs : List α),
      (∀ a ∈ xs, ∀ r, dec (enc a ++ r) = some (a, r)) →
      (∀ a ∈ xs, ∃ f t, enc a = f :: t ∧ f.isEndFrame = false) →
      ∀ rest, ListMultiFrameCodec.decode dec
        (ListMultiFrameCodec.encode enc xs ++ rest) = some (xs, rest))
    ∧ (∀ (α : Type) (enc : α → List Frame),
      ListMultiFrameCodec.encodeNullable enc none
        ≠ ListMultiFrameCodec.encode enc [])
    ∧ (∀ (α : Type) (dec : List Frame → Option (α × List Frame))
        (enc : α → List Frame) (rest : List Frame),
      ListMultiFrameCodec.decodeNullable dec
        (ListMultiFrameCodec.encodeNullable enc none ++ rest)
        = some (none, rest))
    ∧ (∀ (α : Type) (dec : List Frame → Option (α × List Frame))
        (enc : α → List Frame) (xs : List α),
      (∀ a ∈ xs, ∀ r, dec (enc a ++ r) = some (a, r)) →
      (∀ a ∈ xs, ∃ f t, enc a = f :: t ∧ f.isEndFrame = false) →
      ∀ rest, ListMultiFrameCodec.decodeNullable dec
        (ListMultiFrameCodec.encodeNullable enc (some xs) ++ rest)
        = some (some xs, rest))
    ∧ (∀ (κ ν : Type) (decK : List Frame → Option (κ × List Frame))
        (encK : κ → List Frame)
        (decV : List Frame → Option (ν × List Frame))
        (encV : ν → List Frame) (entries : List (κ × ν)),
      (∀ e ∈ entries, ∀ r, decK (encK e.1 ++ r) = some (e.1, r)) →
      (∀ e ∈ entries, ∃ f t, encK e.1 = f :: t ∧ f.isEndFrame = false) →
      (∀ e ∈ entries, ∀ r, decV (encV e.2 ++ r) = some (e.2, r)) →
      ∀ rest, EntryListCodec.decode decK decV
        (EntryListCodec.encode encK encV entries ++ rest)
        = some (entries, rest))
    ∧ (∀ (κ ν : Type) (decK : List Frame → Option (κ × List Frame))
        (encK : κ → List Frame)
        (decV : List Frame → Option (ν × List Frame))
        (encV : ν → List Frame) (entries : List (κ × ν)),
      (∀ e ∈ entries, ∀ r, decK (encK e.1 ++ r) = some (e.1, r)) →
      (∀ e ∈ entries, ∃ f t, encK e.1 = f :: t ∧ f.isEndFrame = false) →
      (∀ e ∈ entries, ∀ r, decV (encV e.2 ++ r) = some (e.2, r)) →
      ∀ rest, EntryListCodec.decodeNullable decK decV
        (EntryListCodec.encodeNullable encK encV (some entries) ++ rest)
        = some (some entries, rest))
    ∧ (∀ (κ ν : Type) (decK : List Frame → Option (κ × List Frame))
        (encK : κ → List Frame)
        (decV : List Frame → Option (ν × List Frame))
        (encV : ν → List Frame) (rest : List Frame),
      EntryListCodec.decodeNullable decK decV
        (EntryListCodec.encodeNullable encK encV none ++ rest)
        = some (none, rest))
    ∧ EntryListCodec.decode StringCodec.decode StringCodec.decode
        (EntryListCodec.encode StringCodec.encode StringCodec.encode
          [([97], [49]), ([98], [50]), ([99], [51])]
          ++ (EntryListCodec.encodeNullable StringCodec.encode
              StringCodec.encode (some [([97], [49]), ([98], [50]),
                ([99], [51])])
            ++ EntryListCodec.encodeNullable StringCodec.encode
              StringCodec.encode none))
        = some ([([97], [49]), ([98], [50]), ([99], [51])],
            EntryListCodec.encodeNullable StringCodec.encode
              StringCodec.encode (some [([97], [49]), ([98], [50]),
                ([99], [51])])
            ++ EntryListCodec.encodeNullable StringCodec.encode
              StringCodec.encode none)
    ∧ EntryListCodec.decodeNullable StringCodec.decode StringCodec.decode
        (EntryListCodec.encodeNullable StringCodec.encode StringCodec.encode
          (some [([97], [49]), ([98], [50]), ([99], [51])])
          ++ EntryListCodec.encodeNullable StringCodec.encode
            StringCodec.encode none)
        = some (some [([97], [49]), ([98], [50]), ([99], [51])],
            EntryListCodec.encodeNullable StringCodec.encode
              StringCodec.encode none)
    ∧ EntryListCodec.decodeNullable StringCodec.decode StringCodec.decode
        (EntryListCodec.encodeNullable StringCodec.encode StringCodec.encode
          none)
        = some (none, []) := by
  have hscenK : ∀ e ∈ [(([97] : List Nat), ([49] : List Nat)),
      ([98], [50]), ([99], [51])], ∀ r,
      StringCodec.decode (StringCodec.encode e.1 ++ r) = some (e.1, r) := by
    intro e he r
    fin_cases he <;> exact string_decode_encode _ (by decide) r
  have hscenKH : ∀ e ∈ [(([97] : List Nat), ([49] : List Nat)),
      ([98], [50]), ([99], [51])],
      ∃ f t, StringCodec.encode e.1 = f :: t ∧ f.isEndFrame = false :=
    fun e _ => ⟨⟨utf8Encode e.1, 0⟩, [], rfl, Frame.isEndFrame_zero_flags _⟩
  have hscenV : ∀ e ∈ [(([97] : List Nat), ([49] : List Nat)),
      ([98], [50]), ([99], [51])], ∀ r,
      StringCodec.decode (StringCodec.encode e.2 ++ r) = some (e.2, r) := by
    intro e he r
    fin_cases he <;> exact string_decode_encode _ (by decide) r
  refine ⟨FixSizedTypesCodec.decodeBoolean_encodeBoolean,
    FixSizedTypesCodec.decodeByte_encodeByte,
    fun buf off v h1 h2 h3 =>
      decodeSigned_encodeSigned 2 (by norm_num) buf off v h1 h2 h3,
    fun buf off v h1 h2 h3 =>
      decodeSigned_encodeSigned 4 (by norm_num) buf off v h1 h2 h3,
    fun buf off v h1 h2 h3 =>
      decodeSigned_encodeSigned 8 (by norm_num) buf off v h1 h2 h3,
    FixSizedTypesCodec.decodeUuid_encodeUuid,
    fun s rest h => string_decode_encode s h rest,
    byteArray_decode_encode,
    fun α dec enc xs hE hH rest =>
      listMultiFrame_decode_encode dec enc xs hE hH rest,
    ?_,
    fun α dec enc rest => listMultiFrame_decodeNullable_none dec enc rest,
    fun α dec enc xs hE hH rest =>
      listMultiFrame_decodeNullable_some dec enc xs hE hH rest,
    fun κ ν decK encK decV encV entries hK hKH hV rest =>
      entryList_decode_encode decK encK decV encV entries hK hKH hV rest,
    fun κ ν decK encK decV encV entries hK hKH hV rest =>
      entryList_decodeNullable_some decK encK decV encV entries
        hK hKH hV rest,
    fun κ ν decK encK decV encV rest =>
      entryList_decodeNullable_none decK encK decV encV rest,
    entryList_decode_encode _ _ _ _ _ hscenK hscenKH hscenV _,
    entryList_decodeNullable_some _ _ _ _ _ hscenK hscenKH hscenV _,
    ?_⟩
  · intro α enc hcontra
    have h1 : (ListMultiFrameCodec.encodeNullable enc none).length = 1 := rfl
    have h2 : (ListMultiFrameCodec.encode enc []).length = 2 := rfl
    rw [hcontra] at h1
    rw [h2] at h1
    exact absurd h1 (by norm_num)
  · have := entryList_decodeNullable_none
      (κ := List Nat) (ν := List Nat)
      StringCodec.decode StringCodec.encode StringCodec.decode
      StringCodec.encode []
    simpa using this

/-- Witness for C3: concrete round trips through the boolean, long (at a
negative value), string (at a four-byte code point), generic list (at the
byte-array element codec) and nullable-UUID codecs. -/
theorem claim_C3_codec_roundtrip_witness :
    FixSizedTypesCodec.decodeBoolean
      (FixSizedTypesCodec.encodeBoolean [0, 0] 1 true) 1 = true
    ∧ FixSizedTypesCodec.decodeLong
        (FixSizedTypesCodec.encodeLong (List.replicate 8 0) 0 (-5)) 0 = -5
    ∧ StringCodec.decode (StringCodec.encode [128512] ++ [])
        = some ([128512], [])
    ∧ ListMultiFrameCodec.decode ByteArrayCodec.decode
        (ListMultiFrameCodec.encode ByteArrayCodec.encode [[1, 2], [3]] ++ [])
        = some ([[1, 2], [3]], [])
    ∧ FixSizedTypesCodec.decodeUuid
        (FixSizedTypesCodec.encodeUuid (List.replicate 17 0) 0
          (some 12345)) 0 = some 12345 :=
  ⟨claim_C3_codec_roundtrip.1 [0, 0] 1 true (by decide),
   claim_C3_codec_roundtrip.2.2.2.2.1 (List.replicate 8 0) 0 (-5)
     (by decide) (by decide) (by decide),
   claim_C3_codec_roundtrip.2.2.2.2.2.2.1 [128512] [] (by decide),
   claim_C3_codec_roundtrip.2.2.2.2.2.2.2.2.1 (List Nat)
     ByteArrayCodec.decode ByteArrayCodec.encode [[1, 2], [3]]
     (fun a _ r => byteArray_decode_encode a r)
     (fun a _ => ⟨⟨a, 0⟩, [], rfl, Frame.isEndFrame_zero_flags a⟩) [],
   claim_C3_codec_roundtrip.2.2.2.2.2.1 (List.replicate 17 0) 0 (some 12345)
     (by decide) (fun x hx => by cases hx; decide)⟩

end ClaimC3

end HzClient
